import Mathlib

/-
Verification of the op-reth import tool's decoding and state-root core.

The development shallowly embeds the Rust sources under src/cli/ :
  - state.rs          : account serialization and the state-root computation
  - blocks.rs         : Erigon block / header / legacy-transaction RLP mappers
  - block_headers.rs  : the header-dump variant of the same mappers
  - receipts.rs       : the receipts-dump decoder

Machine integers are modelled as Nat (the Rust sources never overflow the
modelled operations: RLP integer decoders bound their payload width, and the
encoders take the values produced by those decoders).  Fallible Rust code
returning Result is modelled with an Outcome type that also has an explicit
panic outcome, so that Rust .unwrap() and out-of-bounds slicing are visible
in the model.

The trie-root engine itself (crates triehash / hash-db, reached through
state.rs's call to sec_trie_root) is an external dependency whose code is not
part of this repository; it is modelled from the specification, as flagged on
the corresponding definitions.
-/

namespace OpReth

/-! Keccak-256, the collision-resistant hash used both by the secure trie and
by the account encoder (reth_primitives::keccak256).  Lanes are 64-bit words
modelled as Nat reduced mod 2^64. -/

/-- Rotate a 64-bit lane left by n (0 ≤ n < 64). -/
def rotl64 (v n : Nat) : Nat :=
  ((v <<< n) % (2 ^ 64)) ||| (v >>> (64 - n))

/-- Lane i of a 25-lane Keccak state (0 when out of range). -/
def lane (a : List Nat) (i : Nat) : Nat := a.getD i 0

/-- Rho rotation offsets, indexed by x + 5 * y. -/
def keccakRotOff : List Nat :=
  [0, 1, 62, 28, 27] ++ [36, 44, 6, 55, 20] ++ [3, 10, 43, 25, 39] ++
    [41, 45, 15, 21, 8] ++ [18, 2, 61, 56, 14]

/-- Iota round constants for the 24 rounds of Keccak-f[1600]. -/
def keccakRC : List Nat :=
  [0x0000000000000001, 0x0000000000008082, 0x800000000000808a] ++
    [0x8000000080008000, 0x000000000000808b, 0x0000000080000001] ++
    [0x8000000080008081, 0x8000000000008009, 0x000000000000008a] ++
    [0x0000000000000088, 0x0000000080008009, 0x000000008000000a] ++
    [0x000000008000808b, 0x800000000000008b, 0x8000000000008089] ++
    [0x8000000000008003, 0x8000000000008002, 0x8000000000000080] ++
    [0x000000000000800a, 0x800000008000000a, 0x8000000080008081] ++
    [0x8000000000008080, 0x0000000080000001, 0x8000000080008008]

/-- Theta step of Keccak-f. -/
def theta (a : List Nat) : List Nat :=
  let c := (List.range 5).map (fun x =>
    lane a x ^^^ lane a (x + 5) ^^^ lane a (x + 10) ^^^ lane a (x + 15) ^^^ lane a (x + 20))
  let d := (List.range 5).map (fun x =>
    lane c ((x + 4) % 5) ^^^ rotl64 (lane c ((x + 1) % 5)) 1)
  (List.range 25).map (fun i => lane a i ^^^ lane d (i % 5))

/-- Combined rho and pi steps: output lane (X, Y) takes the rotated source
lane (X + 3Y mod 5, X). -/
def rhoPi (a : List Nat) : List Nat :=
  (List.range 25).map (fun j =>
    let x := (j % 5 + 3 * (j / 5)) % 5
    let y := j % 5
    rotl64 (lane a (x + 5 * y)) (lane keccakRotOff (x + 5 * y)))

/-- Chi step of Keccak-f. -/
def chi (a : List Nat) : List Nat :=
  (List.range 25).map (fun j =>
    let x := j % 5
    let y := j / 5
    lane a j ^^^ ((lane a ((x + 1) % 5 + 5 * y) ^^^ (2 ^ 64 - 1)) &&& lane a ((x + 2) % 5 + 5 * y)))

/-- One Keccak-f round: theta, rho, pi, chi, then iota on lane 0. -/
def keccakRound (a : List Nat) (rc : Nat) : List Nat :=
  match chi (rhoPi (theta a)) with
  | [] => []
  | l0 :: rest => (l0 ^^^ rc) :: rest

/-- Keccak-f[1600]: the 24 rounds folded over the round constants. -/
def keccakF (a : List Nat) : List Nat := keccakRC.foldl keccakRound a

/-- Interpret up to 8 bytes as a little-endian 64-bit lane. -/
def leBytesToNat (bs : List Nat) : Nat := bs.foldr (fun b acc => acc * 256 + b) 0

/-- Absorb one 136-byte rate block into the state and permute. -/
def absorbBlock (st : List Nat) (block : List Nat) : List Nat :=
  let bl := (List.range 17).map (fun j => leBytesToNat ((block.drop (8 * j)).take 8))
  keccakF ((List.range 25).map (fun i => lane st i ^^^ lane bl i))

/-- Multi-rate padding 0x01 .. 0x80 used by Ethereum's Keccak-256 (not the
SHA-3 0x06 variant). -/
def pad101 (m : List Nat) : List Nat :=
  let r := 136 - m.length % 136
  if r = 1 then m ++ [0x81]
  else m ++ [0x01] ++ List.replicate (r - 2) 0 ++ [0x80]

/-- Split a padded message into 136-byte blocks (fuel-structured so the
kernel can evaluate it). -/
def splitBlocksF : Nat → List Nat → List (List Nat)
  | 0, _ => []
  | _ + 1, [] => []
  | fuel + 1, l => l.take 136 :: splitBlocksF fuel (l.drop 136)

/-- Split a padded message into 136-byte blocks. -/
def splitBlocks (l : List Nat) : List (List Nat) := splitBlocksF l.length l

/-- Keccak-256 of a byte string: 32-byte digest. -/
def keccak256 (m : List Nat) : List Nat :=
  let st := (splitBlocks (pad101 m)).foldl absorbBlock (List.replicate 25 0)
  (List.range 32).map (fun i => (lane st (i / 8) >>> (8 * (i % 8))) % 256)

/-! RLP encoding primitives, following reth_rlp's Encodable implementations
for unsigned integers, fixed-width hashes and byte strings, and its Header
type used by state.rs to frame the account list. -/

/-- Minimal big-endian byte representation of n (empty for 0); the fuel is
an upper bound on the number of digits. -/
def beBytesF : Nat → Nat → List Nat
  | 0, _ => []
  | fuel + 1, n => if n = 0 then [] else beBytesF fuel (n / 256) ++ [n % 256]

/-- Minimal big-endian byte representation of n (empty for 0). -/
def beBytes (n : Nat) : List Nat := beBytesF (n + 1) n

/-- RLP encoding of an unsigned integer (reth_rlp's uint Encodable). -/
def encUint (n : Nat) : List Nat :=
  if n = 0 then [0x80]
  else if n < 0x80 then [n]
  else (0x80 + (beBytes n).length) :: beBytes n

/-- RLP length of an unsigned integer, as computed by reth_rlp's length(). -/
def lenUint (n : Nat) : Nat :=
  if n < 0x80 then 1 else 1 + (beBytes n).length

/-- RLP encoding of a 32-byte hash (reth_rlp's H256 Encodable): a 32-byte
string with the 0xa0 header. -/
def encH256 (h : List Nat) : List Nat := 0xa0 :: h

/-- RLP string encoding of an arbitrary byte string. -/
def encBytes (b : List Nat) : List Nat :=
  match b with
  | [x] => if x < 0x80 then [x] else [0x81, x]
  | _ =>
    if b.length < 56 then (0x80 + b.length) :: b
    else (0xb7 + (beBytes b.length).length) :: (beBytes b.length ++ b)

/-- RLP list header for a payload of the given length (reth_rlp's
Header with list = true). -/
def listHeader (payloadLen : Nat) : List Nat :=
  if payloadLen < 56 then [0xc0 + payloadLen]
  else (0xf7 + (beBytes payloadLen).length) :: beBytes payloadLen

/-! The account model and serializer of src/cli/state.rs. -/

/-- reth_primitives::proofs::EMPTY_ROOT, the root digest of the empty trie
(equal to keccak256 of the RLP empty string). -/
def EMPTY_ROOT : List Nat :=
  [0x56, 0xe8, 0x1f, 0x17, 0x1b, 0xcc, 0x55, 0xa6, 0xff, 0x83, 0x45, 0xe6, 0x92, 0xc0, 0xf8, 0x6e,
   0x5b, 0x48, 0xe0, 0x1b, 0x99, 0x6c, 0xad, 0xc0, 0x01, 0x62, 0x2f, 0xb5, 0xe3, 0x63, 0xb4, 0x21]

/-- reth_primitives::KECCAK_EMPTY, keccak256 of the empty byte string. -/
def KECCAK_EMPTY : List Nat :=
  [0xc5, 0xd2, 0x46, 0x01, 0x86, 0xf7, 0x23, 0x3c, 0x92, 0x7e, 0x7d, 0xb2, 0xdc, 0xc7, 0x03, 0xc0,
   0xe5, 0x00, 0xb6, 0x53, 0xca, 0x82, 0x27, 0x3b, 0x7b, 0xfa, 0xd8, 0x04, 0x5d, 0x85, 0xa4, 0x70]

/-- ExportedAccount of state.rs: the JSON world-state record.  Hashes are
32-byte lists, the balance is a U256 value, storage maps 32-byte slot keys
to U256 values. -/
structure ExportedAccount where
  balance : Nat
  code_hash : Option (List Nat)
  code : Option String
  nonce : Option Nat
  root : Option (List Nat)
  storage : Option (List (List Nat × Nat))

/-- exported_account_payload_len of state.rs. -/
def exported_account_payload_len (ea : ExportedAccount) : Nat :=
  lenUint (ea.nonce.getD 0) + lenUint ea.balance + (encH256 EMPTY_ROOT).length +
    (encH256 (ea.code_hash.elim KECCAK_EMPTY keccak256)).length

/-- encode_exported_account of state.rs.  Note that the source applies
reth_primitives::keccak256 to the code hash through Option::map_or, exactly
as written there. -/
def encode_exported_account (ea : ExportedAccount) : List Nat :=
  listHeader (exported_account_payload_len ea)
    ++ encUint (ea.nonce.getD 0)
    ++ encUint ea.balance
    ++ encH256 (ea.root.getD EMPTY_ROOT)
    ++ encH256 (ea.code_hash.elim KECCAK_EMPTY keccak256)

/-! The keyed-hash trie root engine.  state.rs delegates this computation to
the external triehash crate (sec_trie_root with KeccakHasher); that crate is
not part of this repository, so the engine below is modelled from the spec:
keys are first keccak-hashed, the pair collection is canonicalized into a
key-sorted map (last write wins for duplicate keys, matching standard
key/value semantics), and the root digest of the hex-prefix radix structure
over the hashed keys is produced; the empty collection yields EMPTY_ROOT. -/

/-- Lexicographic byte-string comparison used to canonicalize the pair
collection (the ordered-map collect step of the trie engine). -/
def compareL : List Nat → List Nat → Ordering
  | [], [] => .eq
  | [], _ :: _ => .lt
  | _ :: _, [] => .gt
  | a :: as, b :: bs => if a < b then .lt else if b < a then .gt else compareL as bs

/-- Insert a (key, value) pair into a key-sorted association list, replacing
the entry of an equal key (last write wins). -/
def insertSorted (kv : List Nat × α) : List (List Nat × α) → List (List Nat × α)
  | [] => [kv]
  | kv' :: t =>
    match compareL kv.1 kv'.1 with
    | .lt => kv :: kv' :: t
    | .eq => kv :: t
    | .gt => kv' :: insertSorted kv t

/-- Canonicalize an association list into a key-sorted map. -/
def buildMap (pairs : List (List Nat × α)) : List (List Nat × α) :=
  pairs.foldl (fun acc kv => insertSorted kv acc) []

/-- Expand a byte string into its nibble sequence. -/
def toNibbles (bs : List Nat) : List Nat :=
  bs.flatMap (fun b => [b / 16, b % 16])

/-- Pack a nibble sequence into bytes, two nibbles per byte. -/
def packNibbles : List Nat → List Nat
  | a :: b :: t => (16 * a + b) :: packNibbles t
  | _ => []

/-- Hex-prefix (compact) encoding of a nibble path with a leaf flag. -/
def hexPrefixEncode (nib : List Nat) (leaf : Bool) : List Nat :=
  let flag := if leaf then 2 else 0
  if nib.length % 2 = 0 then (16 * flag) :: packNibbles nib
  else (16 * (flag + 1) + nib.headD 0) :: packNibbles nib.tail

/-- Reference to a child node: inlined when its encoding is shorter than 32
bytes, otherwise the keccak digest of the encoding as a 32-byte string. -/
def hashOrInline (node : List Nat) : List Nat :=
  if node.length < 32 then node else encH256 (keccak256 node)

/-- Assemble an RLP list node from already-encoded parts. -/
def rlpNodeOfParts (parts : List (List Nat)) : List Nat :=
  let payload := parts.flatten
  listHeader payload.length ++ payload

/-- Longest shared head of two nibble sequences. -/
def sharedLen : List Nat → List Nat → Nat
  | x :: xs, y :: ys => if x = y then 1 + sharedLen xs ys else 0
  | _, _ => 0

/-- Length of the common head of a family of nibble sequences. -/
def allSharedLen : List (List Nat) → Nat
  | [] => 0
  | x :: xs => xs.foldl (fun a y => min a (sharedLen x y)) x.length

/-- Modelled from the spec: the recursive node builder of the trie root
engine (the hash256rlp step of the external triehash crate, absent from this
repository).  pairs carry nibble-expanded keys sorted and distinct below
position pre; the fuel dominates the remaining key depth. -/
def trieNodeF : Nat → List (List Nat × List Nat) → Nat → List Nat
  | 0, _, _ => [0x80]
  | _ + 1, [], _ => [0x80]
  | _ + 1, [kv], pre =>
    rlpNodeOfParts [encBytes (hexPrefixEncode (kv.1.drop pre) true), encBytes kv.2]
  | fuel + 1, pairs, pre =>
    let shared := allSharedLen (pairs.map (fun kv => kv.1.drop pre))
    if shared > 0 then
      rlpNodeOfParts
        [encBytes (hexPrefixEncode ((pairs.headD ([], [])).1.drop pre |>.take shared) false),
         hashOrInline (trieNodeF fuel pairs (pre + shared))]
    else
      let slots := (List.range 16).map (fun i =>
        match pairs.filter (fun kv => kv.1.getD pre 16 = i) with
        | [] => [0x80]
        | sub => hashOrInline (trieNodeF fuel sub (pre + 1)))
      let valSlot :=
        match pairs.filter (fun kv => decide (kv.1.length = pre)) with
        | [] => [0x80]
        | kv :: _ => encBytes kv.2
      rlpNodeOfParts (slots ++ [valSlot])

/-- Modelled from the spec: the trie root over an association list of raw
(key, serialized value) pairs (the external triehash crate's trie_root):
canonicalize into a sorted map, nibble-expand the keys, build the radix
structure and hash its root node. -/
def trie_root (pairs : List (List Nat × List Nat)) : List Nat :=
  let m := buildMap pairs
  let nib := m.map (fun kv => (toNibbles kv.1, kv.2))
  keccak256 (trieNodeF (2 + nib.foldl (fun a kv => max a kv.1.length) 0) nib 0)

/-- Modelled from the spec: the secure trie root (the external triehash
crate's sec_trie_root with KeccakHasher): every key is keccak-hashed before
being used as the structural radix key. -/
def sec_trie_root (pairs : List (List Nat × List Nat)) : List Nat :=
  trie_root (pairs.map (fun kv => (keccak256 kv.1, kv.2)))

/-- state_root_hash of state.rs: serialize every account and feed the
(address, payload) pairs to the secure trie root.  The State map is modelled
as its association list of entries. -/
def state_root_hash (state : List (List Nat × ExportedAccount)) : List Nat :=
  sec_trie_root (state.map (fun p => (p.1, encode_exported_account p.2)))

/-! The length-prefixed decoder view.  blocks.rs, block_headers.rs and
receipts.rs consume the parity rlp crate's lazy Rlp view of a buffer; the
structural content of that view is the tree of scalars and lists, modelled
here as RlpItem.  The traversal operations below reproduce the crate's
observable behaviour: at() on a data item fails with RlpExpectedToBeList,
the child iterator of a data item is empty (so as_list of a data item
silently yields an empty vector), and is_empty() recognizes exactly the
empty string and the empty list. -/

/-- Error cases of the parity rlp crate's DecoderError reached by the
decoders modelled here. -/
inductive DecoderError where
  | rlpExpectedToBeList
  | rlpExpectedToBeData
  | rlpIsTooShort
  | rlpIsTooBig
  | rlpInvalidIndirection
deriving DecidableEq

/-- Outcome of running a fallible Rust computation: a value, a returned
decode error, or abnormal termination (an unwrap or assertion failure). -/
inductive Outcome (α : Type) where
  | ok (a : α)
  | err (e : DecoderError)
  | panic
deriving DecidableEq

namespace Outcome

/-- Sequencing of outcomes: errors and panics propagate. -/
def bind : Outcome α → (α → Outcome β) → Outcome β
  | .ok a, f => f a
  | .err e, _ => .err e
  | .panic, _ => .panic

instance : Monad Outcome where
  pure := .ok
  bind := bind

/-- Rust Result::unwrap() : a returned error becomes a panic. -/
def unwrap : Outcome α → Outcome α
  | .ok a => .ok a
  | _ => .panic

/-- Rust Option::unwrap() : None becomes a panic. -/
def optUnwrap : Option α → Outcome α
  | some a => .ok a
  | none => .panic

/-- Map a fallible function over a list, propagating the first error or
panic (the collect() of an iterator of results). -/
def mapList (f : α → Outcome β) : List α → Outcome (List β)
  | [] => .ok []
  | a :: t => (f a).bind fun b => (mapList f t).bind fun bs => .ok (b :: bs)

/-- True exactly on the abnormal-termination outcome. -/
def isPanic : Outcome α → Bool
  | .panic => true
  | _ => false

/-- The value of a successful outcome. -/
def toOption : Outcome α → Option α
  | .ok a => some a
  | _ => none

end Outcome

/-- A decoded length-prefixed node: a scalar byte string or an ordered list
of child nodes. -/
inductive RlpItem where
  | str (bytes : List Nat)
  | list (items : List RlpItem)

/-- Rlp::is_empty() : the raw prefix byte is 0x80 (empty string) or 0xc0
(empty list). -/
def RlpItem.isEmptyItem : RlpItem → Bool
  | .str [] => true
  | .list [] => true
  | _ => false

/-- Rlp::at(index) : fails with RlpExpectedToBeList on a data item, with
RlpIsTooShort past the end of a list. -/
def itemAt (r : RlpItem) (i : Nat) : Outcome RlpItem :=
  match r with
  | .str _ => .err .rlpExpectedToBeList
  | .list items =>
    match items[i]? with
    | some x => .ok x
    | none => .err .rlpIsTooShort

/-- Rlp::iter() : the immediate children of a list, and nothing for a data
item (at(0) fails there, so the iterator is immediately exhausted). -/
def iterChildren : RlpItem → List RlpItem
  | .list items => items
  | .str _ => []

/-- Rlp::val_at(index) : index then decode. -/
def valAt (r : RlpItem) (i : Nat) (dec : RlpItem → Outcome α) : Outcome α :=
  (itemAt r i).bind dec

/-- Rlp::as_list() : decode every child yielded by the iterator; on a data
item the iterator yields nothing, so the result is Ok of the empty list. -/
def asList (dec : RlpItem → Outcome α) (r : RlpItem) : Outcome (List α) :=
  Outcome.mapList dec (iterChildren r)

/-- Rlp::list_at(index) : index then as_list. -/
def listAt (r : RlpItem) (i : Nat) (dec : RlpItem → Outcome α) : Outcome (List α) :=
  (itemAt r i).bind (asList dec)

/-- Big-endian integer value of a byte string. -/
def beToNat (bs : List Nat) : Nat := bs.foldl (fun a b => a * 256 + b) 0

/-- The parity rlp uint Decodable of a given byte width: data item required,
a leading zero byte is RlpInvalidIndirection, an over-wide payload is
RlpIsTooBig, otherwise the big-endian value. -/
def decodeUintSize (size : Nat) (r : RlpItem) : Outcome Nat :=
  match r with
  | .list _ => .err .rlpExpectedToBeData
  | .str bytes =>
    match bytes with
    | 0 :: _ => .err .rlpInvalidIndirection
    | _ => if bytes.length ≤ size then .ok (beToNat bytes) else .err .rlpIsTooBig

/-- u8 decoder. -/
def decodeU8 : RlpItem → Outcome Nat := decodeUintSize 1

/-- u64 decoder. -/
def decodeU64 : RlpItem → Outcome Nat := decodeUintSize 8

/-- u128 decoder. -/
def decodeU128 : RlpItem → Outcome Nat := decodeUintSize 16

/-- U256 decoder. -/
def decodeU256 : RlpItem → Outcome Nat := decodeUintSize 32

/-- Fixed-width hash/address decoder (H160, H256, Bloom): a data item of
exactly w bytes, copied byte-for-byte. -/
def decodeHash (w : Nat) (r : RlpItem) : Outcome (List Nat) :=
  match r with
  | .list _ => .err .rlpExpectedToBeData
  | .str bytes =>
    if bytes.length < w then .err .rlpIsTooShort
    else if bytes.length > w then .err .rlpIsTooBig
    else .ok bytes

/-- H160 decoder (20 bytes). -/
def decodeH160 : RlpItem → Outcome (List Nat) := decodeHash 20

/-- H256 decoder (32 bytes). -/
def decodeH256 : RlpItem → Outcome (List Nat) := decodeHash 32

/-- Bloom decoder (256 bytes). -/
def decodeBloom : RlpItem → Outcome (List Nat) := decodeHash 256

/-- Vec<u8> decoder: any data item, payload taken as-is. -/
def decodeBytes (r : RlpItem) : Outcome (List Nat) :=
  match r with
  | .list _ => .err .rlpExpectedToBeData
  | .str bytes => .ok bytes

/-- UTF-8 validity of a byte string, as checked by Rust's str::from_utf8
(rejecting overlong forms, surrogates and values above U+10FFFF). -/
def isValidUtf8 : List Nat → Bool
  | [] => true
  | b :: t =>
    if b ≤ 0x7f then isValidUtf8 t
    else if 0xc2 ≤ b ∧ b ≤ 0xdf then
      match t with
      | c :: t2 => if 0x80 ≤ c ∧ c ≤ 0xbf then isValidUtf8 t2 else false
      | [] => false
    else if b = 0xe0 then
      match t with
      | c :: d :: t2 =>
        if (0xa0 ≤ c ∧ c ≤ 0xbf) ∧ (0x80 ≤ d ∧ d ≤ 0xbf) then isValidUtf8 t2 else false
      | _ => false
    else if (0xe1 ≤ b ∧ b ≤ 0xec) ∨ b = 0xee ∨ b = 0xef then
      match t with
      | c :: d :: t2 =>
        if (0x80 ≤ c ∧ c ≤ 0xbf) ∧ (0x80 ≤ d ∧ d ≤ 0xbf) then isValidUtf8 t2 else false
      | _ => false
    else if b = 0xed then
      match t with
      | c :: d :: t2 =>
        if (0x80 ≤ c ∧ c ≤ 0x9f) ∧ (0x80 ≤ d ∧ d ≤ 0xbf) then isValidUtf8 t2 else false
      | _ => false
    else if b = 0xf0 then
      match t with
      | c :: d :: e :: t2 =>
        if (0x90 ≤ c ∧ c ≤ 0xbf) ∧ (0x80 ≤ d ∧ d ≤ 0xbf) ∧ (0x80 ≤ e ∧ e ≤ 0xbf) then
          isValidUtf8 t2
        else false
      | _ => false
    else if 0xf1 ≤ b ∧ b ≤ 0xf3 then
      match t with
      | c :: d :: e :: t2 =>
        if (0x80 ≤ c ∧ c ≤ 0xbf) ∧ (0x80 ≤ d ∧ d ≤ 0xbf) ∧ (0x80 ≤ e ∧ e ≤ 0xbf) then
          isValidUtf8 t2
        else false
      | _ => false
    else if b = 0xf4 then
      match t with
      | c :: d :: e :: t2 =>
        if (0x80 ≤ c ∧ c ≤ 0x8f) ∧ (0x80 ≤ d ∧ d ≤ 0xbf) ∧ (0x80 ≤ e ∧ e ≤ 0xbf) then
          isValidUtf8 t2
        else false
      | _ => false
    else false

/-- String decoder: a data item whose payload is valid UTF-8, kept here as
its byte sequence. -/
def decodeString (r : RlpItem) : Outcome (List Nat) :=
  match r with
  | .list _ => .err .rlpExpectedToBeData
  | .str bytes => if isValidUtf8 bytes then .ok bytes else .err .rlpExpectedToBeData

/-! Canonical domain records shared by the two block-dump importers: the
reth_primitives Header and signed-transaction shapes that the normalizers
produce. -/

/-- The canonical header produced by the normalizers (reth_primitives
Header).  The three root fields, the bloom and the two hashes are fixed
width byte strings. -/
structure Header where
  parent_hash : List Nat
  ommers_hash : List Nat
  beneficiary : List Nat
  state_root : List Nat
  transactions_root : List Nat
  receipts_root : List Nat
  withdrawals_root : Option (List Nat)
  logs_bloom : List Nat
  difficulty : Nat
  number : Nat
  gas_limit : Nat
  gas_used : Nat
  timestamp : Nat
  mix_hash : List Nat
  nonce : Nat
  base_fee_per_gas : Option Nat
  extra_data : List Nat
deriving DecidableEq

/-- reth TransactionKind: contract creation or a call to a fixed-width
address. -/
inductive TransactionKind where
  | create
  | call («to» : List Nat)
deriving DecidableEq

/-- reth TxLegacy, the canonical legacy-transaction body. -/
structure TxLegacy where
  chain_id : Option Nat
  nonce : Nat
  gas_price : Nat
  gas_limit : Nat
  «to» : TransactionKind
  value : Nat
  input : List Nat
deriving DecidableEq

/-- reth Signature: r, s and the y-parity bit. -/
structure Signature where
  r : Nat
  s : Nat
  odd_y_parity : Bool
deriving DecidableEq

/-- reth TransactionSigned (legacy body plus signature; the cached tx hash
computed by from_transaction_and_signature is external sealing glue and not
modelled). -/
structure TransactionSigned where
  transaction : TxLegacy
  signature : Signature
deriving DecidableEq

namespace Blocks

/-! The mappers of src/cli/blocks.rs. -/

/-- A clone of erigon's header type (blocks.rs ErigonHeader). -/
structure ErigonHeader where
  parent_hash : List Nat
  uncle_hash : List Nat
  coinbase : List Nat
  state_root : List Nat
  tx_hash : List Nat
  receipts_root : List Nat
  logs_bloom : List Nat
  difficulty : Nat
  number : Nat
  gas_limit : Nat
  gas_used : Nat
  timestamp : Nat
  extra_data : List Nat
  mix_hash : List Nat
  block_nonce : List Nat
deriving DecidableEq

/-- The Decodable impl for blocks.rs ErigonHeader: fifteen positional
fields; note that position 14 is read with list_at. -/
def ErigonHeader.decode (rlp : RlpItem) : Outcome ErigonHeader := do
  let parent_hash ← valAt rlp 0 decodeH256
  let uncle_hash ← valAt rlp 1 decodeH256
  let coinbase ← valAt rlp 2 decodeH160
  let state_root ← valAt rlp 3 decodeH256
  let tx_hash ← valAt rlp 4 decodeH256
  let receipts_root ← valAt rlp 5 decodeH256
  let logs_bloom ← valAt rlp 6 decodeBloom
  let difficulty ← valAt rlp 7 decodeU256
  let number ← valAt rlp 8 decodeU64
  let gas_limit ← valAt rlp 9 decodeU64
  let gas_used ← valAt rlp 10 decodeU64
  let timestamp ← valAt rlp 11 decodeU64
  let extra_data ← valAt rlp 12 decodeBytes
  let mix_hash ← valAt rlp 13 decodeH256
  let block_nonce ← listAt rlp 14 decodeU8
  pure { parent_hash, uncle_hash, coinbase, state_root, tx_hash, receipts_root, logs_bloom,
         difficulty, number, gas_limit, gas_used, timestamp, extra_data, mix_hash, block_nonce }

/-- The From impl ErigonHeader -> Header of blocks.rs: fixed-width fields
copied byte-for-byte, the nonce re-read from the captured bytes as a
little-endian 64-bit integer (U64::from_little_endian asserts the slice
holds at most 8 bytes, so longer slices terminate abnormally). -/
def headerFromErigon (h : ErigonHeader) : Outcome Header :=
  if h.block_nonce.length ≤ 8 then
    .ok { parent_hash := h.parent_hash
          ommers_hash := h.uncle_hash
          beneficiary := h.coinbase
          state_root := h.state_root
          transactions_root := h.tx_hash
          receipts_root := h.receipts_root
          withdrawals_root := none
          logs_bloom := h.logs_bloom
          difficulty := h.difficulty
          number := h.number
          gas_limit := h.gas_limit
          gas_used := h.gas_used
          timestamp := h.timestamp
          mix_hash := h.mix_hash
          nonce := leBytesToNat h.block_nonce
          base_fee_per_gas := none
          extra_data := h.extra_data }
  else .panic

/-- blocks.rs LegacyTx. -/
structure LegacyTx where
  nonce : Nat
  gas_price : Nat
  gas : Nat
  «to» : Option (List Nat)
  value : Nat
  data : List Nat
  v : Nat
  r : Nat
  s : Nat
deriving DecidableEq

/-- The Decodable impl for blocks.rs LegacyTx: the recipient at position 3
is fetched with at(3) and checked for emptiness before any fixed-width
address decode is attempted. -/
def LegacyTx.decode (rlp : RlpItem) : Outcome LegacyTx := do
  let nonce ← valAt rlp 0 decodeU64
  let gas_price ← valAt rlp 1 decodeU128
  let gas ← valAt rlp 2 decodeU64
  let toItem ← itemAt rlp 3
  let «to» ←
    if toItem.isEmptyItem then pure none
    else (decodeH160 toItem).bind fun a => pure (some a)
  let value ← valAt rlp 4 decodeU128
  let data ← valAt rlp 5 decodeBytes
  let v ← valAt rlp 6 decodeU256
  let r ← valAt rlp 7 decodeU256
  let s ← valAt rlp 8 decodeU256
  pure { nonce, gas_price, gas, «to» := «to», value, data, v, r, s }

/-- The From impl LegacyTx -> TransactionSigned of blocks.rs: no chain id,
recipient None becomes Create, Some becomes Call, and the parity bit is
v mod 2 == 1. -/
def TransactionSigned.fromLegacy (tx : LegacyTx) : TransactionSigned :=
  { transaction :=
      { chain_id := none
        nonce := tx.nonce
        gas_price := tx.gas_price
        gas_limit := tx.gas
        «to» := match tx.to with
              | some a => .call a
              | none => .create
        value := tx.value
        input := tx.data }
    signature := { r := tx.r, s := tx.s, odd_y_parity := tx.v % 2 == 1 } }

/-- blocks.rs ErigonBlock. -/
structure ErigonBlock where
  header : ErigonHeader
  txs : List LegacyTx
  uncles : List ErigonHeader
deriving DecidableEq

/-- The Decodable impl for blocks.rs ErigonBlock: header via val_at(0),
transactions by iterating the children of at(1) with the per-element decode
unwrapped (a failing transaction panics instead of returning the error),
uncles via list_at(2). -/
def ErigonBlock.decode (rlp : RlpItem) : Outcome ErigonBlock := do
  let header ← valAt rlp 0 ErigonHeader.decode
  let txsItem ← itemAt rlp 1
  let txs ← Outcome.mapList (fun r => Outcome.unwrap (LegacyTx.decode r)) (iterChildren txsItem)
  let uncles ← listAt rlp 2 ErigonHeader.decode
  pure { header, txs, uncles }

/-- The sealed block assembled by the From impl ErigonBlock -> SealedBlock
(the seal_slow digests are reth sealing glue, external to this
repository). -/
structure SealedBlock where
  header : Header
  body : List TransactionSigned
  ommers : List Header
deriving DecidableEq

/-- The From impl ErigonBlock -> SealedBlock of blocks.rs: normalize the
header, every transaction and every uncle header. -/
def SealedBlock.fromErigon (b : ErigonBlock) : Outcome SealedBlock := do
  let header ← headerFromErigon b.header
  let uncles ← Outcome.mapList headerFromErigon b.uncles
  pure { header, body := b.txs.map TransactionSigned.fromLegacy, ommers := uncles }

/-- One decode-and-normalize step of the top-level loop: the record's
decode sequenced with its conversion (used to state which records the
streaming loop keeps). -/
def decodeStep (it : RlpItem) : Outcome SealedBlock :=
  (ErigonBlock.decode it).bind SealedBlock.fromErigon

/-- The while-let loop of blocks.rs Command::execute over the top-level
record iterator: each record is decoded, a returned decode error skips the
record, a successful record is converted and pushed. -/
def blocksLoop : List RlpItem → List SealedBlock → Outcome (List SealedBlock)
  | [], acc => .ok acc
  | it :: rest, acc =>
    match ErigonBlock.decode it with
    | .panic => .panic
    | .err _ => blocksLoop rest acc
    | .ok b =>
      match SealedBlock.fromErigon b with
      | .ok sb => blocksLoop rest (acc ++ [sb])
      | _ => .panic

/-- blocks.rs Command::execute decode phase: iterate the children of the
top-level Rlp view, starting from an empty vector. -/
def executeBlocksLoop (top : RlpItem) : Outcome (List SealedBlock) :=
  blocksLoop (iterChildren top) []

end Blocks

namespace BlockHeaders

/-! The mappers of src/cli/block_headers.rs (a near-duplicate of blocks.rs
with its own record types). -/

/-- block_headers.rs ErigonHeader. -/
structure ErigonHeader where
  parent_hash : List Nat
  uncle_hash : List Nat
  coinbase : List Nat
  state_root : List Nat
  tx_hash : List Nat
  receipts_root : List Nat
  logs_bloom : List Nat
  difficulty : Nat
  number : Nat
  gas_limit : Nat
  gas_used : Nat
  timestamp : Nat
  extra_data : List Nat
  mix_hash : List Nat
  block_nonce : List Nat
deriving DecidableEq

/-- The Decodable impl for block_headers.rs ErigonHeader, identical to the
blocks.rs one: fifteen positional fields, position 14 read with list_at. -/
def ErigonHeader.decode (rlp : RlpItem) : Outcome ErigonHeader := do
  let parent_hash ← valAt rlp 0 decodeH256
  let uncle_hash ← valAt rlp 1 decodeH256
  let coinbase ← valAt rlp 2 decodeH160
  let state_root ← valAt rlp 3 decodeH256
  let tx_hash ← valAt rlp 4 decodeH256
  let receipts_root ← valAt rlp 5 decodeH256
  let logs_bloom ← valAt rlp 6 decodeBloom
  let difficulty ← valAt rlp 7 decodeU256
  let number ← valAt rlp 8 decodeU64
  let gas_limit ← valAt rlp 9 decodeU64
  let gas_used ← valAt rlp 10 decodeU64
  let timestamp ← valAt rlp 11 decodeU64
  let extra_data ← valAt rlp 12 decodeBytes
  let mix_hash ← valAt rlp 13 decodeH256
  let block_nonce ← listAt rlp 14 decodeU8
  pure { parent_hash, uncle_hash, coinbase, state_root, tx_hash, receipts_root, logs_bloom,
         difficulty, number, gas_limit, gas_used, timestamp, extra_data, mix_hash, block_nonce }

/-- block_headers.rs LegacyTx: every numeric field is a U256 and the
recipient is read as a plain byte string with val_at. -/
structure LegacyTx where
  nonce : Nat
  gas_price : Nat
  gas : Nat
  «to» : List Nat
  value : Nat
  data : List Nat
  v : Nat
  r : Nat
  s : Nat
deriving DecidableEq

/-- The Decodable impl for block_headers.rs LegacyTx: nine positional
val_at reads. -/
def LegacyTx.decode (rlp : RlpItem) : Outcome LegacyTx := do
  let nonce ← valAt rlp 0 decodeU256
  let gas_price ← valAt rlp 1 decodeU256
  let gas ← valAt rlp 2 decodeU256
  let «to» ← valAt rlp 3 decodeBytes
  let value ← valAt rlp 4 decodeU256
  let data ← valAt rlp 5 decodeBytes
  let v ← valAt rlp 6 decodeU256
  let r ← valAt rlp 7 decodeU256
  let s ← valAt rlp 8 decodeU256
  pure { nonce, gas_price, gas, «to» := «to», value, data, v, r, s }

/-- block_headers.rs ErigonBlock. -/
structure ErigonBlock where
  header : ErigonHeader
  txs : List LegacyTx
  uncles : List ErigonHeader
deriving DecidableEq

/-- The Decodable impl for block_headers.rs ErigonBlock: header via
val_at(0), then the raw child iterator is advanced past the header and its
next element is unwrapped (fewer than two children panics), transactions
are decoded from that element's children with the per-element decode
unwrapped, uncles via list_at(2). -/
def ErigonBlock.decode (rlp : RlpItem) : Outcome ErigonBlock := do
  let header ← valAt rlp 0 ErigonHeader.decode
  let txsItem ← Outcome.optUnwrap (iterChildren rlp)[1]?
  let txs ← Outcome.mapList (fun r => Outcome.unwrap (LegacyTx.decode r)) (iterChildren txsItem)
  let uncles ← listAt rlp 2 ErigonHeader.decode
  pure { header, txs, uncles }

/-- The inline Header construction in the block_headers.rs execute loop
body: the same normalization as blocks.rs, including the little-endian
nonce re-read (with the same at-most-8-bytes assertion). -/
def headerOfErigon (h : ErigonHeader) : Outcome Header :=
  if h.block_nonce.length ≤ 8 then
    .ok { parent_hash := h.parent_hash
          ommers_hash := h.uncle_hash
          beneficiary := h.coinbase
          state_root := h.state_root
          transactions_root := h.tx_hash
          receipts_root := h.receipts_root
          withdrawals_root := none
          logs_bloom := h.logs_bloom
          difficulty := h.difficulty
          number := h.number
          gas_limit := h.gas_limit
          gas_used := h.gas_used
          timestamp := h.timestamp
          mix_hash := h.mix_hash
          nonce := leBytesToNat h.block_nonce
          base_fee_per_gas := none
          extra_data := h.extra_data }
  else .panic

/-- One decode-and-normalize step of the header-dump loop. -/
def decodeStep (it : RlpItem) : Outcome Header :=
  (ErigonBlock.decode it).bind fun b => headerOfErigon b.header

/-- The while-let loop of block_headers.rs Command::execute: decode each
top-level record, skip records whose decode returns an error, push the
normalized header of each success. -/
def headersLoop : List RlpItem → List Header → Outcome (List Header)
  | [], acc => .ok acc
  | it :: rest, acc =>
    match ErigonBlock.decode it with
    | .panic => .panic
    | .err _ => headersLoop rest acc
    | .ok b =>
      match headerOfErigon b.header with
      | .ok h => headersLoop rest (acc ++ [h])
      | _ => .panic

/-- block_headers.rs Command::execute decode phase. -/
def executeHeadersLoop (top : RlpItem) : Outcome (List Header) :=
  headersLoop (iterChildren top) []

end BlockHeaders

/-! Canonical serialization of a decoded node, used to model Rlp::as_raw()
(receipts.rs keeps the raw bytes of the logs field).  For canonically
encoded inputs this is exactly the raw slice the source keeps. -/

mutual

/-- Canonical RLP serialization of a node. -/
def encodeRlpItem : RlpItem → List Nat
  | .str b => encBytes b
  | .list items =>
    let payload := encodeRlpItems items
    listHeader payload.length ++ payload

/-- Canonical RLP serialization of a sequence of nodes. -/
def encodeRlpItems : List RlpItem → List Nat
  | [] => []
  | it :: t => encodeRlpItem it ++ encodeRlpItems t

end

namespace Receipts

/-! The receipts-dump decoder of src/cli/receipts.rs. -/

/-- receipts.rs Receipt (the HackReceipt-based export record).  The two
String fields are kept as their UTF-8 byte sequences. -/
structure Receipt where
  ty : Nat
  post_state : List Nat
  status : Nat
  cumulative_gas_used : Nat
  bloom : List Nat
  logs : List Nat
  tx_hash : List Nat
  contract_address : List Nat
  gas_used : Nat
  block_hash : List Nat
  block_number : Nat
  transaction_index : Nat
  l1_gas_price : Nat
  l1_gas_used : Nat
  l1_fee : Nat
  l1_fee_scalar : List Nat
deriving DecidableEq

/-- The Decodable impl for receipts.rs Receipt: sixteen positional fields;
the logs field keeps the raw bytes of the node at position 5 (as_raw). -/
def Receipt.decode (rlp : RlpItem) : Outcome Receipt := do
  let ty ← valAt rlp 0 decodeU8
  let post_state ← valAt rlp 1 decodeBytes
  let status ← valAt rlp 2 decodeU64
  let cumulative_gas_used ← valAt rlp 3 decodeU64
  let bloom ← valAt rlp 4 decodeBytes
  let logsItem ← itemAt rlp 5
  let tx_hash ← valAt rlp 6 decodeH256
  let contract_address ← valAt rlp 7 decodeString
  let gas_used ← valAt rlp 8 decodeU64
  let block_hash ← valAt rlp 9 decodeH256
  let block_number ← valAt rlp 10 decodeU256
  let transaction_index ← valAt rlp 11 decodeU64
  let l1_gas_price ← valAt rlp 12 decodeU256
  let l1_gas_used ← valAt rlp 13 decodeU256
  let l1_fee ← valAt rlp 14 decodeU256
  let l1_fee_scalar ← valAt rlp 15 decodeString
  pure { ty, post_state, status, cumulative_gas_used, bloom, logs := encodeRlpItem logsItem,
         tx_hash, contract_address, gas_used, block_hash, block_number, transaction_index,
         l1_gas_price, l1_gas_used, l1_fee, l1_fee_scalar }

mutual

/-- Receipt::decode_receipt_vec of receipts.rs: walk the node's children
(a data node yields none); empty items are skipped, items that decode as a
single receipt are pushed, and any other item is recursively decoded as a
nested batch whose receipts are appended in order. -/
def decodeReceiptVec : RlpItem → Outcome (List Receipt)
  | .str _ => .ok []
  | .list items => decodeReceiptItems items

/-- The loop body of decode_receipt_vec over the child sequence. -/
def decodeReceiptItems : List RlpItem → Outcome (List Receipt)
  | [] => .ok []
  | item :: t =>
    if item.isEmptyItem then decodeReceiptItems t
    else
      match Receipt.decode item with
      | .ok r => (decodeReceiptItems t).bind fun rs => .ok (r :: rs)
      | _ =>
        (decodeReceiptVec item).bind fun inner =>
          (decodeReceiptItems t).bind fun rs => .ok (inner ++ rs)

end

/-! The length-prefixed parse of the receipts buffer.  The parity Rlp view
is lazy; the model parses the leading node of the buffer eagerly (trailing
bytes are ignored, as the source's reading operations do).  A buffer whose
leading node is malformed yields no items to the iterator-driven
decode_receipt_vec, which therefore returns an empty batch; the model maps
a failed parse to the same empty batch. -/

mutual

/-- Parse the first RLP node of a buffer, returning it with the unconsumed
remainder; the fuel dominates the nesting depth. -/
def parseItemF : Nat → List Nat → Option (RlpItem × List Nat)
  | 0, _ => none
  | _ + 1, [] => none
  | fuel + 1, b :: rest =>
    if b < 0x80 then some (.str [b], rest)
    else if b < 0xb8 then
      let len := b - 0x80
      if rest.length < len then none
      else some (.str (rest.take len), rest.drop len)
    else if b < 0xc0 then
      let ll := b - 0xb7
      if rest.length < ll then none
      else
        let len := beToNat (rest.take ll)
        if (rest.drop ll).length < len then none
        else some (.str ((rest.drop ll).take len), (rest.drop ll).drop len)
    else if b < 0xf8 then
      let len := b - 0xc0
      if rest.length < len then none
      else
        match parseItemsF fuel (rest.take len) with
        | some items => some (.list items, rest.drop len)
        | none => none
    else
      let ll := b - 0xf7
      if rest.length < ll then none
      else
        let len := beToNat (rest.take ll)
        if (rest.drop ll).length < len then none
        else
          match parseItemsF fuel ((rest.drop ll).take len) with
          | some items => some (.list items, (rest.drop ll).drop len)
          | none => none

/-- Parse a maximal sequence of RLP nodes covering a buffer exactly. -/
def parseItemsF : Nat → List Nat → Option (List RlpItem)
  | 0, _ => none
  | _ + 1, [] => some []
  | fuel + 1, l =>
    match parseItemF fuel l with
    | some (it, rest) =>
      match parseItemsF fuel rest with
      | some items => some (it :: items)
      | none => none
    | none => none

end

/-- Parse the leading RLP node of a buffer. -/
def parseRlp (bytes : List Nat) : Option RlpItem :=
  (parseItemF (2 * bytes.length + 2) bytes).map Prod.fst

/-- Receipt::from_file of receipts.rs, on the loaded bytes: the buffer is
sliced from index 1 unconditionally (on an empty buffer that slice is out
of bounds and panics), then the remainder is decoded by
decode_receipt_vec. -/
def fromFile (data : List Nat) : Outcome (List Receipt) :=
  match data with
  | [] => .panic
  | _ :: rest =>
    match parseRlp rest with
    | some item => decodeReceiptVec item
    | none => .ok []

end Receipts

/-! The strict key order underlying the trie engine's canonical map, and
concrete records used to exercise the theorems below on closed inputs. -/

/-- Strict key order on association-list entries. -/
def keyLt (p q : List Nat × α) : Prop := compareL p.1 q.1 = .lt

/-- A 32-byte all-zero hash value. -/
def h32z : List Nat := List.replicate 32 0

/-- A 20-byte all-zero address value. -/
def h20z : List Nat := List.replicate 20 0

/-- A 256-byte all-zero logs bloom. -/
def bloomZ : List Nat := List.replicate 256 0

/-- A well-formed fifteen-field header record (nonce field an empty data
item). -/
def goodHeaderItem : RlpItem :=
  .list [.str h32z, .str h32z, .str h20z, .str h32z, .str h32z, .str h32z, .str bloomZ,
         .str [], .str [], .str [], .str [], .str [], .str [], .str h32z, .str []]

/-- The decoded form of goodHeaderItem. -/
def goodErigonHeader : Blocks.ErigonHeader :=
  { parent_hash := h32z, uncle_hash := h32z, coinbase := h20z, state_root := h32z,
    tx_hash := h32z, receipts_root := h32z, logs_bloom := bloomZ, difficulty := 0, number := 0,
    gas_limit := 0, gas_used := 0, timestamp := 0, extra_data := [], mix_hash := h32z,
    block_nonce := [] }

/-- A well-formed block record with no transactions and no uncles. -/
def goodBlockItem : RlpItem := .list [goodHeaderItem, .list [], .list []]

/-- A malformed block record: a data item where the block list is
expected (its decode returns an error, not a panic). -/
def badBlockItem : RlpItem := .str []

/-- A block record whose transaction list holds one malformed transaction
(an empty list, whose first positional field read fails). -/
def c3BadTxBlockItem : RlpItem := .list [goodHeaderItem, .list [.list []], .list []]

/-- A top-level dump holding one well-formed and one malformed record. -/
def c7Top : RlpItem := .list [goodBlockItem, badBlockItem]

/-- A legacy transaction record with a zero-length recipient and v = 2. -/
def txItemCreate : RlpItem :=
  .list [.str [], .str [], .str [], .str [], .str [], .str [], .str [2], .str [1], .str [1]]

/-- The decoded form of txItemCreate. -/
def c5TxCreate : Blocks.LegacyTx :=
  { nonce := 0, gas_price := 0, gas := 0, «to» := none, value := 0, data := [], v := 2, r := 1,
    s := 1 }

/-- A 20-byte recipient address. -/
def c5Addr : List Nat := List.replicate 20 7

/-- A legacy transaction record with a non-empty fixed-width recipient. -/
def txItemCall : RlpItem :=
  .list [.str [], .str [], .str [], .str c5Addr, .str [], .str [], .str [1], .str [1], .str [1]]

/-- The decoded form of txItemCall. -/
def c5TxCall : Blocks.LegacyTx :=
  { nonce := 0, gas_price := 0, gas := 0, «to» := some c5Addr, value := 0, data := [], v := 1,
    r := 1, s := 1 }

/-- A well-formed sixteen-field receipt record. -/
def c8ReceiptItem : RlpItem :=
  .list [.str [], .str [], .str [1], .str [], .str [], .list [], .str h32z, .str [],
         .str [], .str h32z, .str [], .str [], .str [], .str [], .str [], .str []]

/-- The decoded form of c8ReceiptItem. -/
def c8Receipt : Receipts.Receipt :=
  { ty := 0, post_state := [], status := 1, cumulative_gas_used := 0, bloom := [], logs := [0xc0],
    tx_hash := h32z, contract_address := [], gas_used := 0, block_hash := h32z, block_number := 0,
    transaction_index := 0, l1_gas_price := 0, l1_gas_used := 0, l1_fee := 0, l1_fee_scalar := [] }

/-- An 8-byte nonce whose little-endian value is 1. -/
def c9NonceBytes : List Nat := 1 :: List.replicate 7 0

/-- A header record whose nonce field is that raw 8-byte string. -/
def c9HeaderItem : RlpItem :=
  .list [.str h32z, .str h32z, .str h20z, .str h32z, .str h32z, .str h32z, .str bloomZ,
         .str [], .str [], .str [], .str [], .str [], .str [], .str h32z, .str c9NonceBytes]

/-- A 20-byte address of zeros. -/
def c1AddrA : List Nat := List.replicate 20 0

/-- A distinct 20-byte address. -/
def c1AddrB : List Nat := 1 :: List.replicate 19 0

/-- A minimal exported account of balance 1. -/
def c1AccountA : ExportedAccount :=
  { balance := 1, code_hash := none, code := none, nonce := none, root := none, storage := none }

/-- A minimal exported account of balance 2. -/
def c1AccountB : ExportedAccount :=
  { balance := 2, code_hash := none, code := none, nonce := none, root := none, storage := none }

/-- A two-account world state. -/
def c1State1 : List (List Nat × ExportedAccount) := [(c1AddrA, c1AccountA), (c1AddrB, c1AccountB)]

/-- The same world state with its entries reordered. -/
def c1State2 : List (List Nat × ExportedAccount) := [(c1AddrB, c1AccountB), (c1AddrA, c1AccountA)]

/-- An exported account carrying a present code hash. -/
def c2Account : ExportedAccount :=
  { balance := 0, code_hash := some KECCAK_EMPTY, code := none, nonce := none, root := none,
    storage := none }

/-! Properties of the key order and of the canonical-map construction used
by the trie root engine. -/

set_option maxRecDepth 1000000

set_option maxHeartbeats 4000000

theorem compareL_eq_iff (a b : List Nat) : compareL a b = .eq ↔ a = b := by
  induction a generalizing b with
  | cons x xs ih =>
    cases b with
    | nil => simp [compareL]
    | cons y ys =>
      simp only [compareL, List.cons.injEq]
      split_ifs with h1 h2
      · constructor
        · intro h; exact absurd h (by decide)
        · rintro ⟨hx, _⟩; omega
      · constructor
        · intro h; exact absurd h (by decide)
        · rintro ⟨hx, _⟩; omega
      · have hxy : x = y := by omega
        subst hxy
        rw [ih]
        simp
  | nil => cases b <;> simp only [compareL, List.nil_eq, reduceCtorEq]

theorem compareL_gt_iff (a b : List Nat) : compareL a b = .gt ↔ compareL b a = .lt := by
  induction a generalizing b with
  | cons x xs ih =>
    cases b with
    | nil => simp [compareL]
    | cons y ys =>
      simp only [compareL]
      split_ifs <;> first | exact ih ys | decide | omega
  | nil => rcases b with _ | ⟨y, ys⟩ <;> simp [compareL]

theorem compareL_lt_trans : ∀ a b c : List Nat,
    compareL a b = .lt → compareL b c = .lt → compareL a c = .lt := by
  intro a
  induction a with
  | nil =>
    intro b c h1 h2
    cases b with
    | nil => simp [compareL] at h1
    | cons y ys =>
      cases c with
      | nil => simp [compareL] at h2
      | cons z zs => simp [compareL]
  | cons x xs ih =>
    intro b c h1 h2
    cases b with
    | nil => simp [compareL] at h1
    | cons y ys =>
      cases c with
      | nil => simp [compareL] at h2
      | cons z zs =>
        simp only [compareL] at h1 h2 ⊢
        by_cases hxy : x < y
        case pos =>
          by_cases hyz : y < z
          case pos => simp only [if_pos (show x < z by omega)]
          case neg =>
            by_cases hzy : z < y
            case pos => rw [if_neg hyz, if_pos hzy] at h2; exact absurd h2 (by decide)
            case neg =>
              have hyzeq : y = z := by omega
              subst hyzeq
              simp only [if_pos hxy]
        case neg =>
          by_cases hyx : y < x
          case pos => rw [if_neg hxy, if_pos hyx] at h1; exact absurd h1 (by decide)
          case neg =>
            have hxyeq : x = y := by omega
            subst hxyeq
            rw [if_neg hxy, if_neg hyx] at h1
            by_cases hxz : x < z
            case pos => simp only [if_pos hxz]
            case neg =>
              by_cases hzx : z < x
              case pos => rw [if_neg hxz, if_pos hzx] at h2; exact absurd h2 (by decide)
              case neg =>
                rw [if_neg hxz, if_neg hzx] at h2
                simp only [if_neg hxz, if_neg hzx]
                exact ih ys zs h1 h2

theorem keyLt_trans {α : Type} {p q r : List Nat × α} (h1 : keyLt p q) (h2 : keyLt q r) :
    keyLt p r :=
  compareL_lt_trans p.1 q.1 r.1 h1 h2

theorem mem_insertSorted {α : Type} {kv x : List Nat × α} :
    ∀ m : List (List Nat × α), x ∈ insertSorted kv m → x = kv ∨ x ∈ m := by
  intro m
  induction m with
  | nil =>
    intro h
    simp only [insertSorted, List.mem_singleton] at h
    exact Or.inl h
  | cons kv' t ih =>
    intro h
    simp only [insertSorted] at h
    cases hc : compareL kv.1 kv'.1 <;> simp only [hc] at h
    · rcases List.mem_cons.mp h with h | h
      · exact Or.inl h
      · exact Or.inr h
    · rcases List.mem_cons.mp h with h | h
      · exact Or.inl h
      · exact Or.inr (List.mem_cons_of_mem kv' h)
    · rcases List.mem_cons.mp h with h | h
      · exact Or.inr (List.mem_cons.mpr (Or.inl h))
      · rcases ih h with h | h
        · exact Or.inl h
        · exact Or.inr (List.mem_cons_of_mem kv' h)

theorem sorted_insertSorted {α : Type} {kv : List Nat × α} :
    ∀ m : List (List Nat × α), List.Pairwise keyLt m →
      List.Pairwise keyLt (insertSorted kv m) := by
  intro m
  induction m with
  | nil => intro _; simp [insertSorted]
  | cons kv' t ih =>
    intro hs
    rcases List.pairwise_cons.mp hs with ⟨hhead, htail⟩
    simp only [insertSorted]
    cases hc : compareL kv.1 kv'.1
    · refine List.pairwise_cons.mpr ⟨?_, hs⟩
      intro x hx
      rcases List.mem_cons.mp hx with h | h
      · rw [h]; exact hc
      · exact keyLt_trans hc (hhead x h)
    · have hk : kv.1 = kv'.1 := (compareL_eq_iff kv.1 kv'.1).mp hc
      refine List.pairwise_cons.mpr ⟨?_, htail⟩
      intro x hx
      have hx' := hhead x hx
      unfold keyLt at hx' ⊢
      rw [hk]
      exact hx'
    · refine List.pairwise_cons.mpr ⟨?_, ih htail⟩
      intro x hx
      rcases mem_insertSorted _ hx with h | h
      · rw [h]
        exact (compareL_gt_iff kv.1 kv'.1).mp hc
      · exact hhead x h

theorem perm_insertSorted {α : Type} {kv : List Nat × α} :
    ∀ m : List (List Nat × α), (∀ q ∈ m, kv.1 ≠ q.1) →
      List.Perm (insertSorted kv m) (kv :: m) := by
  intro m
  induction m with
  | nil => intro _; simp [insertSorted]
  | cons kv' t ih =>
    intro hdis
    simp only [insertSorted]
    cases hc : compareL kv.1 kv'.1
    · exact List.Perm.refl _
    · exact absurd ((compareL_eq_iff kv.1 kv'.1).mp hc)
        (hdis kv' (List.mem_cons_self kv' t))
    · have ih' := ih (fun q hq => hdis q (List.mem_cons_of_mem kv' hq))
      exact ((ih'.cons kv').trans (List.Perm.swap kv kv' t))

theorem foldl_insertSorted_sorted {α : Type} :
    ∀ (l acc : List (List Nat × α)), List.Pairwise keyLt acc →
      List.Pairwise keyLt (List.foldl (fun m kv => insertSorted kv m) acc l) := by
  intro l
  induction l with
  | cons p ps ih => exact fun acc hs => ih (insertSorted p acc) (sorted_insertSorted acc hs)
  | nil => exact fun acc hs => hs

theorem foldl_insertSorted_perm {α : Type} :
    ∀ (l acc : List (List Nat × α)), (l.map Prod.fst).Nodup →
      (∀ p ∈ l, ∀ q ∈ acc, p.1 ≠ q.1) →
      List.Perm (List.foldl (fun m kv => insertSorted kv m) acc l) (l ++ acc) := by
  intro l
  induction l with
  | nil => exact fun acc _ _ => by simp
  | cons a t ih =>
    intro acc hnd hdis
    simp only [List.foldl_cons]
    have hins : List.Perm (insertSorted a acc) (a :: acc) :=
      perm_insertSorted acc (fun q hq => hdis a (List.mem_cons_self a t) q hq)
    have hnd' : (t.map Prod.fst).Nodup := (List.nodup_cons.mp hnd).2
    have hafst : a.1 ∉ t.map Prod.fst := (List.nodup_cons.mp hnd).1
    have hdis' : ∀ p ∈ t, ∀ q ∈ insertSorted a acc, p.1 ≠ q.1 := by
      intro p hp q hq
      rcases mem_insertSorted _ hq with h | h
      · rw [h]
        intro hcontra
        exact hafst (hcontra ▸ List.mem_map_of_mem Prod.fst hp)
      · exact hdis p (List.mem_cons_of_mem a hp) q h
    have h1 : List.Perm (List.foldl (fun m kv => insertSorted kv m) (insertSorted a acc) t)
        (t ++ insertSorted a acc) := ih (insertSorted a acc) hnd' hdis'
    have h2 : List.Perm (t ++ insertSorted a acc) (t ++ (a :: acc)) :=
      List.Perm.append_left t hins
    have h3 : List.Perm (t ++ (a :: acc)) (a :: (t ++ acc)) := List.perm_middle
    exact h1.trans (h2.trans h3)

theorem buildMap_sorted {α : Type} (l : List (List Nat × α)) :
    List.Pairwise keyLt (buildMap l) :=
  foldl_insertSorted_sorted l [] List.Pairwise.nil

theorem buildMap_perm {α : Type} (l : List (List Nat × α)) (h : (l.map Prod.fst).Nodup) :
    List.Perm (buildMap l) l := by
  have hp := foldl_insertSorted_perm l [] h (by intro p _ q hq; cases hq)
  simpa [buildMap] using hp

theorem buildMap_eq_of_perm {α : Type} (l1 l2 : List (List Nat × α))
    (h : (l1.map Prod.fst).Nodup) (hp : List.Perm l1 l2) : buildMap l1 = buildMap l2 := by
  haveI : IsAntisymm (List Nat × α) keyLt := by
    refine ⟨fun p q hpq hqp => ?_⟩
    have hg : compareL p.1 q.1 = .gt := (compareL_gt_iff p.1 q.1).mpr hqp
    rw [hpq] at hg
    exact absurd hg (by decide)
  have h2 : (l2.map Prod.fst).Nodup := ((hp.map Prod.fst).nodup_iff).mp h
  exact List.eq_of_perm_of_sorted
    (((buildMap_perm l1 h).trans hp).trans (buildMap_perm l2 h2).symm)
    (buildMap_sorted l1) (buildMap_sorted l2)

/-- C1: state_root_hash (through the secure trie root) is order
independent: permuting the association list of (address, serialized
account) pairs of a world state whose hashed address keys are pairwise
distinct (as they are for the entries of a State map) leaves the 32-byte
digest unchanged. -/
theorem state_root_hash_order_independent (s1 s2 : List (List Nat × ExportedAccount))
    (hkeys : (s1.map (fun p => keccak256 p.1)).Nodup) (hperm : List.Perm s1 s2) :
    state_root_hash s1 = state_root_hash s2 := by
  unfold state_root_hash sec_trie_root trie_root
  rw [List.map_map, List.map_map]
  have hmap :
      buildMap (s1.map ((fun kv : List Nat × List Nat => (keccak256 kv.1, kv.2)) ∘
        fun p : List Nat × ExportedAccount => (p.1, encode_exported_account p.2))) =
      buildMap (s2.map ((fun kv : List Nat × List Nat => (keccak256 kv.1, kv.2)) ∘
        fun p : List Nat × ExportedAccount => (p.1, encode_exported_account p.2))) := by
    apply buildMap_eq_of_perm
    · simpa [List.map_map, Function.comp] using hkeys
    · exact hperm.map _
  rw [hmap]

/-- C1 witness: the concrete two-account state and its reversal have
distinct hashed keys and equal roots. -/
theorem state_root_hash_order_independent_witness :
    (c1State1.map (fun p => keccak256 p.1)).Nodup ∧
      state_root_hash c1State1 = state_root_hash c1State2 :=
  ⟨by decide, state_root_hash_order_independent c1State1 c1State2 (by decide)
    (by unfold c1State1 c1State2; exact List.Perm.swap _ _ _)⟩

/-- Sanity: the modelled keccak256 of the empty string is the KECCAK_EMPTY
constant of reth_primitives. -/
theorem keccak256_nil : keccak256 [] = KECCAK_EMPTY := by decide

/-- C4: the root computation on an empty association list returns the
fixed EMPTY_ROOT constant (keccak256 of the RLP empty string) and does not
fail. -/
theorem state_root_hash_empty : state_root_hash [] = EMPTY_ROOT := by decide

/-- C2 (code bug): on an account whose code_hash field is present, the
serializer does not copy the 32-byte hash byte-for-byte: the trailing
33-byte field of the emitted record is the RLP of keccak256 applied to the
stored hash, which differs from the RLP of the stored hash itself. -/
theorem encode_exported_account_rehashes_code_hash :
    (encode_exported_account c2Account).drop 37 = encH256 (keccak256 KECCAK_EMPTY) ∧
      (encode_exported_account c2Account).drop 37 ≠ encH256 KECCAK_EMPTY :=
  ⟨by decide, by decide⟩

/-! Outcome plumbing lemmas used to reason about the do-notation chains of
the typed mappers. -/

@[simp] theorem bind_eq_bind {α β : Type} {x : Outcome α} {f : α → Outcome β} :
    x >>= f = Outcome.bind x f := rfl

@[simp] theorem pure_eq_ok {α : Type} (a : α) : (pure a : Outcome α) = Outcome.ok a := rfl

theorem bind_ok_elim {α β : Type} {m : Outcome α} {g : α → Outcome β} {res : β}
    (h : Outcome.bind m g = .ok res) : ∃ v, m = .ok v ∧ g v = .ok res := by
  cases m with
  | panic => simp [Outcome.bind] at h
  | err e => simp [Outcome.bind] at h
  | ok v => exact ⟨v, rfl, h⟩

theorem bind_noPanic {α β : Type} {x : Outcome α} {f : α → Outcome β}
    (hx : x.isPanic = false) (hf : ∀ a, (f a).isPanic = false) :
    (Outcome.bind x f).isPanic = false := by
  cases x with
  | ok a => exact hf a
  | err e => rfl
  | panic => exact absurd hx (by simp [Outcome.isPanic])

theorem itemAt_noPanic (r : RlpItem) (i : Nat) : (itemAt r i).isPanic = false := by
  cases r with
  | str b => rfl
  | list items =>
    simp only [itemAt]
    cases items[i]? <;> rfl

theorem decodeUintSize_noPanic (s : Nat) (r : RlpItem) : (decodeUintSize s r).isPanic = false := by
  unfold decodeUintSize
  split
  · rfl
  · split
    · rfl
    · split <;> rfl

theorem decodeHash_noPanic (w : Nat) (r : RlpItem) : (decodeHash w r).isPanic = false := by
  unfold decodeHash
  split
  · rfl
  · split_ifs <;> rfl

theorem decodeBytes_noPanic (r : RlpItem) : (decodeBytes r).isPanic = false := by
  cases r <;> rfl

theorem decodeString_noPanic (r : RlpItem) : (decodeString r).isPanic = false := by
  unfold decodeString
  split
  · rfl
  · split_ifs <;> rfl

theorem valAt_noPanic {α : Type} (item : RlpItem) (i : Nat) (dec : RlpItem → Outcome α)
    (hd : ∀ r, (dec r).isPanic = false) : (valAt item i dec).isPanic = false :=
  bind_noPanic (itemAt_noPanic item i) hd

theorem mapList_noPanic {α β : Type} (f : α → Outcome β) (hf : ∀ a, (f a).isPanic = false) :
    ∀ l : List α, (Outcome.mapList f l).isPanic = false := by
  intro l
  induction l with
  | cons u rest ihm => exact bind_noPanic (hf u) (fun b => bind_noPanic ihm (fun bs => rfl))
  | nil => rfl

theorem asList_noPanic {α : Type} (dec : RlpItem → Outcome α)
    (hd : ∀ r, (dec r).isPanic = false) (r : RlpItem) : (asList dec r).isPanic = false :=
  mapList_noPanic dec hd (iterChildren r)

theorem listAt_noPanic {α : Type} (item : RlpItem) (i : Nat) (dec : RlpItem → Outcome α)
    (hd : ∀ r, (dec r).isPanic = false) : (listAt item i dec).isPanic = false :=
  bind_noPanic (itemAt_noPanic item i) (fun r => asList_noPanic dec hd r)

/-- C3 counterexample: a block record whose transaction list holds one
malformed transaction makes the blocks.rs block mapper terminate abnormally
(the per-transaction decode is unwrapped), and a block record with fewer
than two children makes the block_headers.rs block mapper terminate
abnormally; neither failure is returned as a decode error. -/
theorem block_decode_panics_on_bad_tx :
    Blocks.ErigonBlock.decode c3BadTxBlockItem = .panic ∧
      BlockHeaders.ErigonBlock.decode (.list [goodHeaderItem]) = .panic :=
  ⟨rfl, rfl⟩

/-! Per-mapper lemmas behind C3's amendment: no abnormal termination and
no partially defaulted records for the header and legacy-transaction
mappers of both files, and returned-error propagation through the block
mappers' own positional fields. -/

theorem blocksHeader_noPanic (item : RlpItem) :
    (Blocks.ErigonHeader.decode item).isPanic = false := by
  unfold Blocks.ErigonHeader.decode
  simp only [bind_eq_bind]
  refine bind_noPanic (valAt_noPanic _ _ _ (decodeHash_noPanic 32)) (fun a0 => ?_)
  refine bind_noPanic (valAt_noPanic _ _ _ (decodeHash_noPanic 32)) (fun a1 => ?_)
  refine bind_noPanic (valAt_noPanic _ _ _ (decodeHash_noPanic 20)) (fun a2 => ?_)
  refine bind_noPanic (valAt_noPanic _ _ _ (decodeHash_noPanic 32)) (fun a3 => ?_)
  refine bind_noPanic (valAt_noPanic _ _ _ (decodeHash_noPanic 32)) (fun a4 => ?_)
  refine bind_noPanic (valAt_noPanic _ _ _ (decodeHash_noPanic 32)) (fun a5 => ?_)
  refine bind_noPanic (valAt_noPanic _ _ _ (decodeHash_noPanic 256)) (fun a6 => ?_)
  refine bind_noPanic (valAt_noPanic _ _ _ (decodeUintSize_noPanic 32)) (fun a7 => ?_)
  refine bind_noPanic (valAt_noPanic _ _ _ (decodeUintSize_noPanic 8)) (fun a8 => ?_)
  refine bind_noPanic (valAt_noPanic _ _ _ (decodeUintSize_noPanic 8)) (fun a9 => ?_)
  refine bind_noPanic (valAt_noPanic _ _ _ (decodeUintSize_noPanic 8)) (fun a10 => ?_)
  refine bind_noPanic (valAt_noPanic _ _ _ (decodeUintSize_noPanic 8)) (fun a11 => ?_)
  refine bind_noPanic (valAt_noPanic _ _ _ decodeBytes_noPanic) (fun a12 => ?_)
  refine bind_noPanic (valAt_noPanic _ _ _ (decodeHash_noPanic 32)) (fun a13 => ?_)
  refine bind_noPanic (listAt_noPanic _ _ _ (decodeUintSize_noPanic 1)) (fun a14 => ?_)
  rfl

theorem bhHeader_noPanic (item : RlpItem) :
    (BlockHeaders.ErigonHeader.decode item).isPanic = false := by
  unfold BlockHeaders.ErigonHeader.decode
  simp only [bind_eq_bind]
  refine bind_noPanic (valAt_noPanic _ _ _ (decodeHash_noPanic 32)) (fun b0 => ?_)
  refine bind_noPanic (valAt_noPanic _ _ _ (decodeHash_noPanic 32)) (fun b1 => ?_)
  refine bind_noPanic (valAt_noPanic _ _ _ (decodeHash_noPanic 20)) (fun b2 => ?_)
  refine bind_noPanic (valAt_noPanic _ _ _ (decodeHash_noPanic 32)) (fun b3 => ?_)
  refine bind_noPanic (valAt_noPanic _ _ _ (decodeHash_noPanic 32)) (fun b4 => ?_)
  refine bind_noPanic (valAt_noPanic _ _ _ (decodeHash_noPanic 32)) (fun b5 => ?_)
  refine bind_noPanic (valAt_noPanic _ _ _ (decodeHash_noPanic 256)) (fun b6 => ?_)
  refine bind_noPanic (valAt_noPanic _ _ _ (decodeUintSize_noPanic 32)) (fun b7 => ?_)
  refine bind_noPanic (valAt_noPanic _ _ _ (decodeUintSize_noPanic 8)) (fun b8 => ?_)
  refine bind_noPanic (valAt_noPanic _ _ _ (decodeUintSize_noPanic 8)) (fun b9 => ?_)
  refine bind_noPanic (valAt_noPanic _ _ _ (decodeUintSize_noPanic 8)) (fun b10 => ?_)
  refine bind_noPanic (valAt_noPanic _ _ _ (decodeUintSize_noPanic 8)) (fun b11 => ?_)
  refine bind_noPanic (valAt_noPanic _ _ _ decodeBytes_noPanic) (fun b12 => ?_)
  refine bind_noPanic (valAt_noPanic _ _ _ (decodeHash_noPanic 32)) (fun b13 => ?_)
  refine bind_noPanic (listAt_noPanic _ _ _ (decodeUintSize_noPanic 1)) (fun b14 => ?_)
  rfl

theorem blocksTx_noPanic (item : RlpItem) :
    (Blocks.LegacyTx.decode item).isPanic = false := by
  unfold Blocks.LegacyTx.decode
  simp only [bind_eq_bind]
  refine bind_noPanic (valAt_noPanic _ _ _ (decodeUintSize_noPanic 8)) (fun a0 => ?_)
  refine bind_noPanic (valAt_noPanic _ _ _ (decodeUintSize_noPanic 16)) (fun a1 => ?_)
  refine bind_noPanic (valAt_noPanic _ _ _ (decodeUintSize_noPanic 8)) (fun a2 => ?_)
  refine bind_noPanic (itemAt_noPanic _ _) (fun toItem => ?_)
  split
  · refine bind_noPanic rfl (fun tov => ?_)
    refine bind_noPanic (valAt_noPanic _ _ _ (decodeUintSize_noPanic 16)) (fun a4 => ?_)
    refine bind_noPanic (valAt_noPanic _ _ _ decodeBytes_noPanic) (fun a5 => ?_)
    refine bind_noPanic (valAt_noPanic _ _ _ (decodeUintSize_noPanic 32)) (fun a6 => ?_)
    refine bind_noPanic (valAt_noPanic _ _ _ (decodeUintSize_noPanic 32)) (fun a7 => ?_)
    refine bind_noPanic (valAt_noPanic _ _ _ (decodeUintSize_noPanic 32)) (fun a8 => ?_)
    rfl
  · refine bind_noPanic (bind_noPanic (decodeHash_noPanic 20 toItem) (fun a => rfl))
      (fun tov => ?_)
    refine bind_noPanic (valAt_noPanic _ _ _ (decodeUintSize_noPanic 16)) (fun a4 => ?_)
    refine bind_noPanic (valAt_noPanic _ _ _ decodeBytes_noPanic) (fun a5 => ?_)
    refine bind_noPanic (valAt_noPanic _ _ _ (decodeUintSize_noPanic 32)) (fun a6 => ?_)
    refine bind_noPanic (valAt_noPanic _ _ _ (decodeUintSize_noPanic 32)) (fun a7 => ?_)
    refine bind_noPanic (valAt_noPanic _ _ _ (decodeUintSize_noPanic 32)) (fun a8 => ?_)
    rfl

theorem bhTx_noPanic (item : RlpItem) :
    (BlockHeaders.LegacyTx.decode item).isPanic = false := by
  unfold BlockHeaders.LegacyTx.decode
  simp only [bind_eq_bind]
  refine bind_noPanic (valAt_noPanic _ _ _ (decodeUintSize_noPanic 32)) (fun b0 => ?_)
  refine bind_noPanic (valAt_noPanic _ _ _ (decodeUintSize_noPanic 32)) (fun b1 => ?_)
  refine bind_noPanic (valAt_noPanic _ _ _ (decodeUintSize_noPanic 32)) (fun b2 => ?_)
  refine bind_noPanic (valAt_noPanic _ _ _ decodeBytes_noPanic) (fun b3 => ?_)
  refine bind_noPanic (valAt_noPanic _ _ _ (decodeUintSize_noPanic 32)) (fun b4 => ?_)
  refine bind_noPanic (valAt_noPanic _ _ _ decodeBytes_noPanic) (fun b5 => ?_)
  refine bind_noPanic (valAt_noPanic _ _ _ (decodeUintSize_noPanic 32)) (fun b6 => ?_)
  refine bind_noPanic (valAt_noPanic _ _ _ (decodeUintSize_noPanic 32)) (fun b7 => ?_)
  refine bind_noPanic (valAt_noPanic _ _ _ (decodeUintSize_noPanic 32)) (fun b8 => ?_)
  rfl

theorem blocksHeader_fields (item : RlpItem) (h : Blocks.ErigonHeader)
    (hdec : Blocks.ErigonHeader.decode item = .ok h) :
    valAt item 0 decodeH256 = .ok h.parent_hash ∧
    valAt item 1 decodeH256 = .ok h.uncle_hash ∧
    valAt item 2 decodeH160 = .ok h.coinbase ∧
    valAt item 3 decodeH256 = .ok h.state_root ∧
    valAt item 4 decodeH256 = .ok h.tx_hash ∧
    valAt item 5 decodeH256 = .ok h.receipts_root ∧
    valAt item 6 decodeBloom = .ok h.logs_bloom ∧
    valAt item 7 decodeU256 = .ok h.difficulty ∧
    valAt item 8 decodeU64 = .ok h.number ∧
    valAt item 9 decodeU64 = .ok h.gas_limit ∧
    valAt item 10 decodeU64 = .ok h.gas_used ∧
    valAt item 11 decodeU64 = .ok h.timestamp ∧
    valAt item 12 decodeBytes = .ok h.extra_data ∧
    valAt item 13 decodeH256 = .ok h.mix_hash ∧
    listAt item 14 decodeU8 = .ok h.block_nonce := by
  unfold Blocks.ErigonHeader.decode at hdec
  simp only [bind_eq_bind] at hdec
  obtain ⟨a0, q0, hdec⟩ := bind_ok_elim hdec
  obtain ⟨a1, q1, hdec⟩ := bind_ok_elim hdec
  obtain ⟨a2, q2, hdec⟩ := bind_ok_elim hdec
  obtain ⟨a3, q3, hdec⟩ := bind_ok_elim hdec
  obtain ⟨a4, q4, hdec⟩ := bind_ok_elim hdec
  obtain ⟨a5, q5, hdec⟩ := bind_ok_elim hdec
  obtain ⟨a6, q6, hdec⟩ := bind_ok_elim hdec
  obtain ⟨a7, q7, hdec⟩ := bind_ok_elim hdec
  obtain ⟨a8, q8, hdec⟩ := bind_ok_elim hdec
  obtain ⟨a9, q9, hdec⟩ := bind_ok_elim hdec
  obtain ⟨a10, q10, hdec⟩ := bind_ok_elim hdec
  obtain ⟨a11, q11, hdec⟩ := bind_ok_elim hdec
  obtain ⟨a12, q12, hdec⟩ := bind_ok_elim hdec
  obtain ⟨a13, q13, hdec⟩ := bind_ok_elim hdec
  obtain ⟨a14, q14, hdec⟩ := bind_ok_elim hdec
  rw [pure_eq_ok] at hdec
  injection hdec with hrec
  subst hrec
  refine ⟨q0, q1, q2, q3, q4, q5, q6, ?_⟩
  exact ⟨q7, q8, q9, q10, q11, q12, q13, q14⟩

theorem bhHeader_fields (item : RlpItem) (h : BlockHeaders.ErigonHeader)
    (hdec : BlockHeaders.ErigonHeader.decode item = .ok h) :
    valAt item 0 decodeH256 = .ok h.parent_hash ∧
    valAt item 1 decodeH256 = .ok h.uncle_hash ∧
    valAt item 2 decodeH160 = .ok h.coinbase ∧
    valAt item 3 decodeH256 = .ok h.state_root ∧
    valAt item 4 decodeH256 = .ok h.tx_hash ∧
    valAt item 5 decodeH256 = .ok h.receipts_root ∧
    valAt item 6 decodeBloom = .ok h.logs_bloom ∧
    valAt item 7 decodeU256 = .ok h.difficulty ∧
    valAt item 8 decodeU64 = .ok h.number ∧
    valAt item 9 decodeU64 = .ok h.gas_limit ∧
    valAt item 10 decodeU64 = .ok h.gas_used ∧
    valAt item 11 decodeU64 = .ok h.timestamp ∧
    valAt item 12 decodeBytes = .ok h.extra_data ∧
    valAt item 13 decodeH256 = .ok h.mix_hash ∧
    listAt item 14 decodeU8 = .ok h.block_nonce := by
  unfold BlockHeaders.ErigonHeader.decode at hdec
  simp only [bind_eq_bind] at hdec
  obtain ⟨c0, w0, hdec⟩ := bind_ok_elim hdec
  obtain ⟨c1, w1, hdec⟩ := bind_ok_elim hdec
  obtain ⟨c2, w2, hdec⟩ := bind_ok_elim hdec
  obtain ⟨c3, w3, hdec⟩ := bind_ok_elim hdec
  obtain ⟨c4, w4, hdec⟩ := bind_ok_elim hdec
  obtain ⟨c5, w5, hdec⟩ := bind_ok_elim hdec
  obtain ⟨c6, w6, hdec⟩ := bind_ok_elim hdec
  obtain ⟨c7, w7, hdec⟩ := bind_ok_elim hdec
  obtain ⟨c8, w8, hdec⟩ := bind_ok_elim hdec
  obtain ⟨c9, w9, hdec⟩ := bind_ok_elim hdec
  obtain ⟨c10, w10, hdec⟩ := bind_ok_elim hdec
  obtain ⟨c11, w11, hdec⟩ := bind_ok_elim hdec
  obtain ⟨c12, w12, hdec⟩ := bind_ok_elim hdec
  obtain ⟨c13, w13, hdec⟩ := bind_ok_elim hdec
  obtain ⟨c14, w14, hdec⟩ := bind_ok_elim hdec
  rw [pure_eq_ok] at hdec
  injection hdec with hrec
  subst hrec
  refine ⟨w0, w1, w2, w3, w4, w5, ?_⟩
  exact ⟨w6, w7, w8, w9, w10, w11, w12, w13, w14⟩

theorem blocksTx_fields (item : RlpItem) (tx : Blocks.LegacyTx)
    (hdec : Blocks.LegacyTx.decode item = .ok tx) :
    valAt item 0 decodeU64 = .ok tx.nonce ∧
    valAt item 1 decodeU128 = .ok tx.gas_price ∧
    valAt item 2 decodeU64 = .ok tx.gas ∧
    (∃ toItem, itemAt item 3 = .ok toItem ∧
      (if toItem.isEmptyItem then Outcome.ok none
       else (decodeH160 toItem).bind fun a => Outcome.ok (some a)) = .ok tx.to) ∧
    valAt item 4 decodeU128 = .ok tx.value ∧
    valAt item 5 decodeBytes = .ok tx.data ∧
    valAt item 6 decodeU256 = .ok tx.v ∧
    valAt item 7 decodeU256 = .ok tx.r ∧
    valAt item 8 decodeU256 = .ok tx.s := by
  unfold Blocks.LegacyTx.decode at hdec
  simp only [bind_eq_bind] at hdec
  obtain ⟨a0, q0, hdec⟩ := bind_ok_elim hdec
  obtain ⟨a1, q1, hdec⟩ := bind_ok_elim hdec
  obtain ⟨a2, q2, hdec⟩ := bind_ok_elim hdec
  obtain ⟨toItem, q3, hdec⟩ := bind_ok_elim hdec
  by_cases hemp : toItem.isEmptyItem
  · rw [if_pos hemp] at hdec
    obtain ⟨y, hy, hdec⟩ := bind_ok_elim hdec
    rw [pure_eq_ok] at hy
    injection hy with hyv
    obtain ⟨a4, q4, hdec⟩ := bind_ok_elim hdec
    obtain ⟨a5, q5, hdec⟩ := bind_ok_elim hdec
    obtain ⟨a6, q6, hdec⟩ := bind_ok_elim hdec
    obtain ⟨a7, q7, hdec⟩ := bind_ok_elim hdec
    obtain ⟨a8, q8, hdec⟩ := bind_ok_elim hdec
    rw [pure_eq_ok] at hdec
    injection hdec with hrec
    subst hrec
    refine ⟨q0, q1, q2, ⟨toItem, q3, ?_⟩, q4, q5, q6, q7, q8⟩
    rw [if_pos hemp]
    exact congrArg Outcome.ok hyv
  · rw [if_neg hemp] at hdec
    obtain ⟨y, hy, hdec⟩ := bind_ok_elim hdec
    obtain ⟨a4, q4, hdec⟩ := bind_ok_elim hdec
    obtain ⟨a5, q5, hdec⟩ := bind_ok_elim hdec
    obtain ⟨a6, q6, hdec⟩ := bind_ok_elim hdec
    obtain ⟨a7, q7, hdec⟩ := bind_ok_elim hdec
    obtain ⟨a8, q8, hdec⟩ := bind_ok_elim hdec
    rw [pure_eq_ok] at hdec
    injection hdec with hrec
    subst hrec
    refine ⟨q0, q1, q2, ⟨toItem, q3, ?_⟩, q4, q5, q6, q7, q8⟩
    rw [if_neg hemp]
    exact hy

theorem bhTx_fields (item : RlpItem) (tx : BlockHeaders.LegacyTx)
    (hdec : BlockHeaders.LegacyTx.decode item = .ok tx) :
    valAt item 0 decodeU256 = .ok tx.nonce ∧
    valAt item 1 decodeU256 = .ok tx.gas_price ∧
    valAt item 2 decodeU256 = .ok tx.gas ∧
    valAt item 3 decodeBytes = .ok tx.to ∧
    valAt item 4 decodeU256 = .ok tx.value ∧
    valAt item 5 decodeBytes = .ok tx.data ∧
    valAt item 6 decodeU256 = .ok tx.v ∧
    valAt item 7 decodeU256 = .ok tx.r ∧
    valAt item 8 decodeU256 = .ok tx.s := by
  unfold BlockHeaders.LegacyTx.decode at hdec
  simp only [bind_eq_bind] at hdec
  obtain ⟨c0, w0, hdec⟩ := bind_ok_elim hdec
  obtain ⟨c1, w1, hdec⟩ := bind_ok_elim hdec
  obtain ⟨c2, w2, hdec⟩ := bind_ok_elim hdec
  obtain ⟨c3, w3, hdec⟩ := bind_ok_elim hdec
  obtain ⟨c4, w4, hdec⟩ := bind_ok_elim hdec
  obtain ⟨c5, w5, hdec⟩ := bind_ok_elim hdec
  obtain ⟨c6, w6, hdec⟩ := bind_ok_elim hdec
  obtain ⟨c7, w7, hdec⟩ := bind_ok_elim hdec
  obtain ⟨c8, w8, hdec⟩ := bind_ok_elim hdec
  rw [pure_eq_ok] at hdec
  injection hdec with hrec
  subst hrec
  exact ⟨w0, w1, w2, w3, w4, ⟨w5, w6, w7, w8⟩⟩

theorem blocksBlock_err_header (item : RlpItem) (e : DecoderError)
    (h0 : valAt item 0 Blocks.ErigonHeader.decode = .err e) :
    Blocks.ErigonBlock.decode item = .err e := by
  unfold Blocks.ErigonBlock.decode
  simp only [bind_eq_bind]
  rw [h0]
  rfl

theorem blocksBlock_err_txslot (item : RlpItem) (e : DecoderError) (hd : Blocks.ErigonHeader)
    (h0 : valAt item 0 Blocks.ErigonHeader.decode = .ok hd)
    (h1 : itemAt item 1 = .err e) :
    Blocks.ErigonBlock.decode item = .err e := by
  unfold Blocks.ErigonBlock.decode
  simp only [bind_eq_bind]
  rw [h0]
  simp only [Outcome.bind]
  rw [h1]

theorem blocksBlock_err_uncles (item : RlpItem) (e : DecoderError) (hd : Blocks.ErigonHeader)
    (txsItem : RlpItem) (txs : List Blocks.LegacyTx)
    (h0 : valAt item 0 Blocks.ErigonHeader.decode = .ok hd)
    (h1 : itemAt item 1 = .ok txsItem)
    (h2 : Outcome.mapList (fun r => Outcome.unwrap (Blocks.LegacyTx.decode r))
      (iterChildren txsItem) = .ok txs)
    (h3 : listAt item 2 Blocks.ErigonHeader.decode = .err e) :
    Blocks.ErigonBlock.decode item = .err e := by
  unfold Blocks.ErigonBlock.decode
  simp only [bind_eq_bind]
  rw [h0]
  simp only [Outcome.bind]
  rw [h1]
  simp only [Outcome.bind]
  rw [h2]
  simp only [Outcome.bind]
  rw [h3]

theorem bhBlock_err_header (item : RlpItem) (e : DecoderError)
    (h0 : valAt item 0 BlockHeaders.ErigonHeader.decode = .err e) :
    BlockHeaders.ErigonBlock.decode item = .err e := by
  unfold BlockHeaders.ErigonBlock.decode
  simp only [bind_eq_bind]
  rw [h0]
  rfl

theorem bhBlock_err_uncles (item : RlpItem) (e : DecoderError)
    (hd : BlockHeaders.ErigonHeader) (txsItem : RlpItem) (txs : List BlockHeaders.LegacyTx)
    (h0 : valAt item 0 BlockHeaders.ErigonHeader.decode = .ok hd)
    (hch : (iterChildren item)[1]? = some txsItem)
    (h2 : Outcome.mapList (fun r => Outcome.unwrap (BlockHeaders.LegacyTx.decode r))
      (iterChildren txsItem) = .ok txs)
    (h3 : listAt item 2 BlockHeaders.ErigonHeader.decode = .err e) :
    BlockHeaders.ErigonBlock.decode item = .err e := by
  unfold BlockHeaders.ErigonBlock.decode
  simp only [bind_eq_bind]
  rw [h0]
  simp only [Outcome.bind]
  rw [hch]
  simp only [Outcome.optUnwrap, Outcome.bind]
  rw [h2]
  simp only [Outcome.bind]
  rw [h3]

/-- C3 amended: in both blocks.rs and block_headers.rs, the header and
legacy-transaction mappers report a failing positional field as a returned
decode error of the whole record and never terminate abnormally; a
successfully decoded header or legacy-transaction record carries exactly
its positionally decoded field values (no defaulting, the recipient going
through the emptiness check of the source); and the block mappers' own
positional reads (header slot, blocks.rs transaction-list slot, uncles
slot) propagate returned errors as returned errors.  The exceptions the
counterexample forces remain: a failing element inside the transaction
list panics via unwrap, and the block_headers.rs variant panics on a block
list with fewer than two children. -/
theorem field_failures_return_errors :
    (∀ item : RlpItem,
      (Blocks.ErigonHeader.decode item).isPanic = false ∧
      (Blocks.LegacyTx.decode item).isPanic = false ∧
      (BlockHeaders.ErigonHeader.decode item).isPanic = false ∧
      (BlockHeaders.LegacyTx.decode item).isPanic = false) ∧
    (∀ (item : RlpItem) (h : Blocks.ErigonHeader), Blocks.ErigonHeader.decode item = .ok h →
      valAt item 0 decodeH256 = .ok h.parent_hash ∧
      valAt item 1 decodeH256 = .ok h.uncle_hash ∧
      valAt item 2 decodeH160 = .ok h.coinbase ∧
      valAt item 3 decodeH256 = .ok h.state_root ∧
      valAt item 4 decodeH256 = .ok h.tx_hash ∧
      valAt item 5 decodeH256 = .ok h.receipts_root ∧
      valAt item 6 decodeBloom = .ok h.logs_bloom ∧
      valAt item 7 decodeU256 = .ok h.difficulty ∧
      valAt item 8 decodeU64 = .ok h.number ∧
      valAt item 9 decodeU64 = .ok h.gas_limit ∧
      valAt item 10 decodeU64 = .ok h.gas_used ∧
      valAt item 11 decodeU64 = .ok h.timestamp ∧
      valAt item 12 decodeBytes = .ok h.extra_data ∧
      valAt item 13 decodeH256 = .ok h.mix_hash ∧
      listAt item 14 decodeU8 = .ok h.block_nonce) ∧
    (∀ (item : RlpItem) (h : BlockHeaders.ErigonHeader),
      BlockHeaders.ErigonHeader.decode item = .ok h →
      valAt item 0 decodeH256 = .ok h.parent_hash ∧
      valAt item 1 decodeH256 = .ok h.uncle_hash ∧
      valAt item 2 decodeH160 = .ok h.coinbase ∧
      valAt item 3 decodeH256 = .ok h.state_root ∧
      valAt item 4 decodeH256 = .ok h.tx_hash ∧
      valAt item 5 decodeH256 = .ok h.receipts_root ∧
      valAt item 6 decodeBloom = .ok h.logs_bloom ∧
      valAt item 7 decodeU256 = .ok h.difficulty ∧
      valAt item 8 decodeU64 = .ok h.number ∧
      valAt item 9 decodeU64 = .ok h.gas_limit ∧
      valAt item 10 decodeU64 = .ok h.gas_used ∧
      valAt item 11 decodeU64 = .ok h.timestamp ∧
      valAt item 12 decodeBytes = .ok h.extra_data ∧
      valAt item 13 decodeH256 = .ok h.mix_hash ∧
      listAt item 14 decodeU8 = .ok h.block_nonce) ∧
    (∀ (item : RlpItem) (tx : Blocks.LegacyTx), Blocks.LegacyTx.decode item = .ok tx →
      valAt item 0 decodeU64 = .ok tx.nonce ∧
      valAt item 1 decodeU128 = .ok tx.gas_price ∧
      valAt item 2 decodeU64 = .ok tx.gas ∧
      (∃ toItem, itemAt item 3 = .ok toItem ∧
        (if toItem.isEmptyItem then Outcome.ok none
         else (decodeH160 toItem).bind fun a => Outcome.ok (some a)) = .ok tx.to) ∧
      valAt item 4 decodeU128 = .ok tx.value ∧
      valAt item 5 decodeBytes = .ok tx.data ∧
      valAt item 6 decodeU256 = .ok tx.v ∧
      valAt item 7 decodeU256 = .ok tx.r ∧
      valAt item 8 decodeU256 = .ok tx.s) ∧
    (∀ (item : RlpItem) (tx : BlockHeaders.LegacyTx),
      BlockHeaders.LegacyTx.decode item = .ok tx →
      valAt item 0 decodeU256 = .ok tx.nonce ∧
      valAt item 1 decodeU256 = .ok tx.gas_price ∧
      valAt item 2 decodeU256 = .ok tx.gas ∧
      valAt item 3 decodeBytes = .ok tx.to ∧
      valAt item 4 decodeU256 = .ok tx.value ∧
      valAt item 5 decodeBytes = .ok tx.data ∧
      valAt item 6 decodeU256 = .ok tx.v ∧
      valAt item 7 decodeU256 = .ok tx.r ∧
      valAt item 8 decodeU256 = .ok tx.s) ∧
    (∀ (item : RlpItem) (e : DecoderError),
      (valAt item 0 Blocks.ErigonHeader.decode = .err e →
        Blocks.ErigonBlock.decode item = .err e) ∧
      (∀ hd : Blocks.ErigonHeader, valAt item 0 Blocks.ErigonHeader.decode = .ok hd →
        itemAt item 1 = .err e → Blocks.ErigonBlock.decode item = .err e) ∧
      (∀ (hd : Blocks.ErigonHeader) (txsItem : RlpItem) (txs : List Blocks.LegacyTx),
        valAt item 0 Blocks.ErigonHeader.decode = .ok hd →
        itemAt item 1 = .ok txsItem →
        Outcome.mapList (fun r => Outcome.unwrap (Blocks.LegacyTx.decode r))
          (iterChildren txsItem) = .ok txs →
        listAt item 2 Blocks.ErigonHeader.decode = .err e →
        Blocks.ErigonBlock.decode item = .err e)) ∧
    (∀ (item : RlpItem) (e : DecoderError),
      (valAt item 0 BlockHeaders.ErigonHeader.decode = .err e →
        BlockHeaders.ErigonBlock.decode item = .err e) ∧
      (∀ (hd : BlockHeaders.ErigonHeader) (txsItem : RlpItem)
          (txs : List BlockHeaders.LegacyTx),
        valAt item 0 BlockHeaders.ErigonHeader.decode = .ok hd →
        (iterChildren item)[1]? = some txsItem →
        Outcome.mapList (fun r => Outcome.unwrap (BlockHeaders.LegacyTx.decode r))
          (iterChildren txsItem) = .ok txs →
        listAt item 2 BlockHeaders.ErigonHeader.decode = .err e →
        BlockHeaders.ErigonBlock.decode item = .err e)) := by
  refine ⟨?_, ?_, ?_, ?_, ?_, ?_, ?_⟩
  · intro item
    exact ⟨blocksHeader_noPanic item, blocksTx_noPanic item, bhHeader_noPanic item,
      bhTx_noPanic item⟩
  · exact blocksHeader_fields
  · exact bhHeader_fields
  · exact blocksTx_fields
  · exact bhTx_fields
  · intro item e
    exact ⟨blocksBlock_err_header item e,
      fun hd h0 h1 => blocksBlock_err_txslot item e hd h0 h1,
      fun hd txsItem txs h0 h1 h2 h3 =>
        blocksBlock_err_uncles item e hd txsItem txs h0 h1 h2 h3⟩
  · intro item e
    exact ⟨bhBlock_err_header item e,
      fun hd txsItem txs h0 hch h2 h3 =>
        bhBlock_err_uncles item e hd txsItem txs h0 hch h2 h3⟩

/-- C3 amended witness: the well-formed header record decodes to exactly
its positional field values, and a record failing its first positional
read makes the block mapper return that error. -/
theorem field_failures_return_errors_witness :
    Blocks.ErigonHeader.decode goodHeaderItem = .ok goodErigonHeader ∧
      valAt goodHeaderItem 0 decodeH256 = .ok goodErigonHeader.parent_hash ∧
      Blocks.ErigonBlock.decode badBlockItem = .err .rlpExpectedToBeList :=
  ⟨rfl, (field_failures_return_errors.2.1 goodHeaderItem goodErigonHeader rfl).1,
    (field_failures_return_errors.2.2.2.2.2.1 badBlockItem .rlpExpectedToBeList).1 rfl⟩

/-! Inversion helpers for the legacy-transaction mapper. -/

theorem decodeHash_ok_inv {w : Nat} {r : RlpItem} {a : List Nat} (h : decodeHash w r = .ok a) :
    r = .str a ∧ a.length = w := by
  unfold decodeHash at h
  split at h
  · exact absurd h (by simp)
  · rename_i bytes
    by_cases h1 : bytes.length < w
    · rw [if_pos h1] at h
      exact absurd h (by simp)
    · rw [if_neg h1] at h
      by_cases h2 : bytes.length > w
      · rw [if_pos h2] at h
        exact absurd h (by simp)
      · rw [if_neg h2] at h
        injection h with hba
        subst hba
        exact ⟨rfl, by omega⟩

theorem legacyTx_decode_to_spec (item : RlpItem) (tx : Blocks.LegacyTx)
    (hdec : Blocks.LegacyTx.decode item = .ok tx) :
    ∃ toItem, itemAt item 3 = .ok toItem ∧
      ((toItem.isEmptyItem = true ∧ tx.to = none) ∨
        (toItem.isEmptyItem = false ∧
          ∃ a, decodeHash 20 toItem = .ok a ∧ tx.to = some a)) := by
  unfold Blocks.LegacyTx.decode at hdec
  simp only [bind_eq_bind] at hdec
  obtain ⟨a0, h0, hdec⟩ := bind_ok_elim hdec
  obtain ⟨a1, h1, hdec⟩ := bind_ok_elim hdec
  obtain ⟨a2, h2, hdec⟩ := bind_ok_elim hdec
  obtain ⟨toItem, h3, hdec⟩ := bind_ok_elim hdec
  refine ⟨toItem, h3, ?_⟩
  by_cases hemp : toItem.isEmptyItem
  · left
    refine ⟨hemp, ?_⟩
    rw [if_pos hemp] at hdec
    simp only [pure_eq_ok, Outcome.bind] at hdec
    obtain ⟨a4, h4, hdec⟩ := bind_ok_elim hdec
    obtain ⟨a5, h5, hdec⟩ := bind_ok_elim hdec
    obtain ⟨a6, h6, hdec⟩ := bind_ok_elim hdec
    obtain ⟨a7, h7, hdec⟩ := bind_ok_elim hdec
    obtain ⟨a8, h8, hdec⟩ := bind_ok_elim hdec
    injection hdec with hrec
    subst hrec
    rfl
  · right
    rw [if_neg hemp] at hdec
    simp only [Bool.not_eq_true] at hemp
    obtain ⟨y, hy, hdec⟩ := bind_ok_elim hdec
    obtain ⟨a, ha, hy⟩ := bind_ok_elim hy
    rw [pure_eq_ok] at hy
    injection hy with hya
    obtain ⟨a4, h4, hdec⟩ := bind_ok_elim hdec
    obtain ⟨a5, h5, hdec⟩ := bind_ok_elim hdec
    obtain ⟨a6, h6, hdec⟩ := bind_ok_elim hdec
    obtain ⟨a7, h7, hdec⟩ := bind_ok_elim hdec
    obtain ⟨a8, h8, hdec⟩ := bind_ok_elim hdec
    rw [pure_eq_ok] at hdec
    injection hdec with hrec
    subst hrec
    exact ⟨hemp, a, ha, by rw [← hya]⟩

/-- C5: for a successfully decoded legacy transaction, a zero-length
recipient field at position 3 produces recipient None (normalized to
TransactionKind Create, with no fixed-width constraint applied), while a
non-empty recipient field is exactly the decoded 20-byte address
(normalized to TransactionKind Call of that address). -/
theorem legacy_tx_recipient_detection (item : RlpItem) (tx : Blocks.LegacyTx)
    (hdec : Blocks.LegacyTx.decode item = .ok tx) :
    (itemAt item 3 = .ok (.str []) → tx.to = none ∧
      (Blocks.TransactionSigned.fromLegacy tx).transaction.to = .create) ∧
    (∀ a : List Nat, itemAt item 3 = .ok (.str a) → a ≠ [] →
      tx.to = some a ∧ a.length = 20 ∧
      (Blocks.TransactionSigned.fromLegacy tx).transaction.to = .call a) := by
  obtain ⟨toItem, h3, hspec⟩ := legacyTx_decode_to_spec item tx hdec
  constructor
  · intro h3e
    have hti : toItem = .str [] := Outcome.ok.inj (h3.symm.trans h3e)
    subst hti
    rcases hspec with ⟨_, hto⟩ | ⟨hfalse, _⟩
    · exact ⟨hto, by simp [Blocks.TransactionSigned.fromLegacy, hto]⟩
    · simp [RlpItem.isEmptyItem] at hfalse
  · intro a h3a hne
    have hti : toItem = .str a := Outcome.ok.inj (h3.symm.trans h3a)
    subst hti
    rcases hspec with ⟨hemp, _⟩ | ⟨_, b, hb, hto⟩
    · cases a with
      | nil => exact absurd rfl hne
      | cons x xs => simp [RlpItem.isEmptyItem] at hemp
    · obtain ⟨hstr, hlen⟩ := decodeHash_ok_inv hb
      injection hstr with hab
      subst hab
      exact ⟨hto, hlen, by simp [Blocks.TransactionSigned.fromLegacy, hto]⟩

/-- C5 witness: the concrete create-style and call-style transaction
records decode to recipient None (Create) and to the exact 20-byte address
(Call) respectively. -/
theorem legacy_tx_recipient_detection_witness :
    (Blocks.LegacyTx.decode txItemCreate = .ok c5TxCreate ∧
      c5TxCreate.to = none ∧
      (Blocks.TransactionSigned.fromLegacy c5TxCreate).transaction.to = .create) ∧
    (Blocks.LegacyTx.decode txItemCall = .ok c5TxCall ∧
      c5TxCall.to = some c5Addr ∧
      (Blocks.TransactionSigned.fromLegacy c5TxCall).transaction.to = .call c5Addr) := by
  constructor
  · have h := legacy_tx_recipient_detection txItemCreate c5TxCreate rfl
    exact ⟨rfl, (h.1 rfl).1, (h.1 rfl).2⟩
  · have h := legacy_tx_recipient_detection txItemCall c5TxCall rfl
    have h2 := h.2 c5Addr rfl (by decide)
    exact ⟨rfl, h2.1, h2.2.2⟩

/-- C6: the normalizer derives the signature parity bit as v mod 2 == 1
with no chain-id offset (the normalized transaction carries no chain id),
and a legacy transaction with a zero-length recipient and an even v
normalizes to recipient Create with parity false. -/
theorem legacy_tx_parity_normalization :
    (∀ tx : Blocks.LegacyTx,
      (Blocks.TransactionSigned.fromLegacy tx).signature.odd_y_parity = (tx.v % 2 == 1) ∧
      (Blocks.TransactionSigned.fromLegacy tx).transaction.chain_id = none) ∧
    (∀ (item : RlpItem) (tx : Blocks.LegacyTx), Blocks.LegacyTx.decode item = .ok tx →
      itemAt item 3 = .ok (.str []) → tx.v % 2 = 0 →
      (Blocks.TransactionSigned.fromLegacy tx).transaction.to = .create ∧
      (Blocks.TransactionSigned.fromLegacy tx).signature.odd_y_parity = false) := by
  constructor
  · intro tx
    exact ⟨rfl, rfl⟩
  · intro item tx hdec h3 hv
    obtain ⟨toItem, h3p, hspec⟩ := legacyTx_decode_to_spec item tx hdec
    have hti : toItem = .str [] := Outcome.ok.inj (h3p.symm.trans h3)
    subst hti
    rcases hspec with ⟨_, hto⟩ | ⟨hfalse, _⟩
    · constructor
      · simp [Blocks.TransactionSigned.fromLegacy, hto]
      · simp [Blocks.TransactionSigned.fromLegacy, hv]
    · simp [RlpItem.isEmptyItem] at hfalse

/-- C6 witness: the concrete even-v create-style transaction record
normalizes to Create with parity false. -/
theorem legacy_tx_parity_normalization_witness :
    Blocks.LegacyTx.decode txItemCreate = .ok c5TxCreate ∧ c5TxCreate.v % 2 = 0 ∧
      (Blocks.TransactionSigned.fromLegacy c5TxCreate).transaction.to = .create ∧
      (Blocks.TransactionSigned.fromLegacy c5TxCreate).signature.odd_y_parity = false := by
  have h := legacy_tx_parity_normalization.2 txItemCreate c5TxCreate rfl rfl (by decide)
  exact ⟨rfl, by decide, h.1, h.2⟩

/-! The streaming loops never turn a returned decode error into an abort:
helper facts that the normalizers can only succeed or panic, never return a
decode error of their own. -/

theorem headerFromErigon_ne_err (h : Blocks.ErigonHeader) (e : DecoderError) :
    Blocks.headerFromErigon h ≠ .err e := by
  unfold Blocks.headerFromErigon
  split <;> simp

theorem headerOfErigon_ne_err (h : BlockHeaders.ErigonHeader) (e : DecoderError) :
    BlockHeaders.headerOfErigon h ≠ .err e := by
  unfold BlockHeaders.headerOfErigon
  split <;> simp

theorem mapList_ne_err {α β : Type} (f : α → Outcome β) (hf : ∀ a e, f a ≠ .err e) :
    ∀ (l : List α) (e : DecoderError), Outcome.mapList f l ≠ .err e := by
  intro l
  induction l with
  | nil => intro e; simp [Outcome.mapList]
  | cons a t ih =>
    intro e
    simp only [Outcome.mapList]
    cases hfa : f a with
    | ok b =>
      simp only [Outcome.bind]
      cases hmt : Outcome.mapList f t with
      | ok bs => simp [Outcome.bind]
      | err e2 => exact absurd hmt (ih e2)
      | panic => simp [Outcome.bind]
    | err e2 => exact absurd hfa (hf a e2)
    | panic => simp [Outcome.bind]

theorem sealedFromErigon_ne_err (b : Blocks.ErigonBlock) (e : DecoderError) :
    Blocks.SealedBlock.fromErigon b ≠ .err e := by
  unfold Blocks.SealedBlock.fromErigon
  simp only [bind_eq_bind]
  cases hh : Blocks.headerFromErigon b.header with
  | ok hd =>
    simp only [Outcome.bind]
    cases hm : Outcome.mapList Blocks.headerFromErigon b.uncles with
    | ok us => simp [Outcome.bind]
    | err e2 => exact absurd hm (mapList_ne_err _ headerFromErigon_ne_err b.uncles e2)
    | panic => simp [Outcome.bind]
  | err e2 => exact absurd hh (headerFromErigon_ne_err b.header e2)
  | panic => simp [Outcome.bind]

theorem blocksLoop_spec :
    ∀ (items : List RlpItem) (acc : List Blocks.SealedBlock),
      (∀ it ∈ items, (Blocks.decodeStep it).isPanic = false) →
      Blocks.blocksLoop items acc =
        .ok (acc ++ items.filterMap fun it => (Blocks.decodeStep it).toOption) := by
  intro items
  induction items with
  | nil => intro acc _; simp [Blocks.blocksLoop]
  | cons it rest ih =>
    intro acc hnp
    have hit := hnp it (List.mem_cons_self it rest)
    have hrest : ∀ x ∈ rest, (Blocks.decodeStep x).isPanic = false :=
      fun x hx => hnp x (List.mem_cons_of_mem it hx)
    cases hd : Blocks.ErigonBlock.decode it with
    | ok b =>
      cases hc : Blocks.SealedBlock.fromErigon b with
      | ok sb =>
        have hstep : Blocks.decodeStep it = .ok sb := by
          unfold Blocks.decodeStep
          rw [hd]
          simpa [Outcome.bind] using hc
        simp only [Blocks.blocksLoop, hd, hc]
        rw [ih (acc ++ [sb]) hrest]
        simp [List.filterMap_cons, hstep, Outcome.toOption]
      | err e2 => exact absurd hc (sealedFromErigon_ne_err b e2)
      | panic =>
        have hstep : Blocks.decodeStep it = .panic := by
          unfold Blocks.decodeStep
          rw [hd]
          simpa [Outcome.bind] using hc
        rw [hstep] at hit
        simp [Outcome.isPanic] at hit
    | err e =>
      have hstep : Blocks.decodeStep it = .err e := by
        unfold Blocks.decodeStep
        rw [hd]
        rfl
      simp only [Blocks.blocksLoop, hd]
      rw [ih acc hrest]
      simp [List.filterMap_cons, hstep, Outcome.toOption]
    | panic =>
      have hstep : Blocks.decodeStep it = .panic := by
        unfold Blocks.decodeStep
        rw [hd]
        rfl
      rw [hstep] at hit
      simp [Outcome.isPanic] at hit

theorem headersLoop_spec :
    ∀ (items : List RlpItem) (acc : List Header),
      (∀ it ∈ items, (BlockHeaders.decodeStep it).isPanic = false) →
      BlockHeaders.headersLoop items acc =
        .ok (acc ++ items.filterMap fun it => (BlockHeaders.decodeStep it).toOption) := by
  intro items
  induction items with
  | nil => intro acc _; simp [BlockHeaders.headersLoop]
  | cons it rest ih =>
    intro acc hnp
    have hit := hnp it (List.mem_cons_self it rest)
    have hrest : ∀ x ∈ rest, (BlockHeaders.decodeStep x).isPanic = false :=
      fun x hx => hnp x (List.mem_cons_of_mem it hx)
    cases hd : BlockHeaders.ErigonBlock.decode it with
    | ok b =>
      cases hc : BlockHeaders.headerOfErigon b.header with
      | ok h =>
        have hstep : BlockHeaders.decodeStep it = .ok h := by
          unfold BlockHeaders.decodeStep
          rw [hd]
          simpa [Outcome.bind] using hc
        simp only [BlockHeaders.headersLoop, hd, hc]
        rw [ih (acc ++ [h]) hrest]
        simp [List.filterMap_cons, hstep, Outcome.toOption]
      | err e2 => exact absurd hc (headerOfErigon_ne_err b.header e2)
      | panic =>
        have hstep : BlockHeaders.decodeStep it = .panic := by
          unfold BlockHeaders.decodeStep
          rw [hd]
          simpa [Outcome.bind] using hc
        rw [hstep] at hit
        simp [Outcome.isPanic] at hit
    | err e =>
      have hstep : BlockHeaders.decodeStep it = .err e := by
        unfold BlockHeaders.decodeStep
        rw [hd]
        rfl
      simp only [BlockHeaders.headersLoop, hd]
      rw [ih acc hrest]
      simp [List.filterMap_cons, hstep, Outcome.toOption]
    | panic =>
      have hstep : BlockHeaders.decodeStep it = .panic := by
        unfold BlockHeaders.decodeStep
        rw [hd]
        rfl
      rw [hstep] at hit
      simp [Outcome.isPanic] at hit

/-- C7: both top-level streaming loops decode records one at a time and,
as long as no record makes the decode-and-normalize step terminate
abnormally, a record whose decode returns an error is skipped and the loop
returns the in-order sequence of all successfully decoded records instead
of aborting the import. -/
theorem top_level_loops_skip_bad_records :
    (∀ top : RlpItem, (∀ it ∈ iterChildren top, (Blocks.decodeStep it).isPanic = false) →
      Blocks.executeBlocksLoop top =
        .ok ((iterChildren top).filterMap fun it => (Blocks.decodeStep it).toOption)) ∧
    (∀ top : RlpItem, (∀ it ∈ iterChildren top, (BlockHeaders.decodeStep it).isPanic = false) →
      BlockHeaders.executeHeadersLoop top =
        .ok ((iterChildren top).filterMap fun it => (BlockHeaders.decodeStep it).toOption)) := by
  constructor
  · intro top hnp
    have h := blocksLoop_spec (iterChildren top) [] hnp
    simpa [Blocks.executeBlocksLoop] using h
  · intro top hnp
    have h := headersLoop_spec (iterChildren top) [] hnp
    simpa [BlockHeaders.executeHeadersLoop] using h

/-- C7 witness: on a dump holding one well-formed and one malformed record
the loop keeps exactly the well-formed record, in order. -/
theorem top_level_loops_skip_bad_records_witness :
    (∀ it ∈ iterChildren c7Top, (Blocks.decodeStep it).isPanic = false) ∧
      Blocks.executeBlocksLoop c7Top =
        .ok ((iterChildren c7Top).filterMap fun it => (Blocks.decodeStep it).toOption) :=
  ⟨by decide, top_level_loops_skip_bad_records.1 c7Top (by decide)⟩

/-! Flattening behaviour of the receipts decoder. -/

theorem receipt_decode_ok_shape (item : RlpItem) (r : Receipts.Receipt)
    (h : Receipts.Receipt.decode item = .ok r) : ∃ a t, item = .list (a :: t) := by
  cases item with
  | str b =>
    unfold Receipts.Receipt.decode at h
    simp [bind_eq_bind, valAt, itemAt, Outcome.bind] at h
  | list items =>
    cases items with
    | nil =>
      unfold Receipts.Receipt.decode at h
      simp [bind_eq_bind, valAt, itemAt, Outcome.bind] at h
    | cons a t => exact ⟨a, t, rfl⟩

theorem receipt_decode_wrapper_fails (x : RlpItem) (xs rest : List RlpItem) :
    Receipts.Receipt.decode (.list (.list (x :: xs) :: rest)) =
      .err .rlpExpectedToBeData := by
  unfold Receipts.Receipt.decode
  simp [bind_eq_bind, valAt, itemAt, decodeU8, decodeUintSize, Outcome.bind]

theorem decodeReceiptItems_all_ok :
    ∀ (items : List RlpItem) (rs : List Receipts.Receipt),
      Outcome.mapList Receipts.Receipt.decode items = .ok rs →
      Receipts.decodeReceiptItems items = .ok rs := by
  intro items
  induction items with
  | nil =>
    intro rs h
    simp only [Outcome.mapList] at h
    injection h with h
    subst h
    rfl
  | cons a t ih =>
    intro rs h
    simp only [Outcome.mapList] at h
    obtain ⟨r0, hd0, h⟩ := bind_ok_elim h
    obtain ⟨rs2, hdt, h⟩ := bind_ok_elim h
    injection h with h
    subst h
    obtain ⟨x, xs, hsh⟩ := receipt_decode_ok_shape a r0 hd0
    have hne : a.isEmptyItem = false := by rw [hsh]; rfl
    simp only [Receipts.decodeReceiptItems, hne, Bool.false_eq_true, if_false, hd0]
    rw [ih rs2 hdt]
    rfl

/-- C8: the receipts loader strips exactly one leading byte (the result on
a non-empty buffer does not depend on the stripped byte), and the recursive
batch decoder flattens an extra nested list layer instead of treating it as
a decode error: a batch of well-decoding receipt records yields the same
in-order flat sequence whether or not it is wrapped in an extra list. -/
theorem receipts_strip_and_flatten :
    (∀ (b b2 : Nat) (rest : List Nat),
      Receipts.fromFile (b :: rest) = Receipts.fromFile (b2 :: rest)) ∧
    (∀ (items : List RlpItem) (rs : List Receipts.Receipt),
      Outcome.mapList Receipts.Receipt.decode items = .ok rs →
      Receipts.decodeReceiptVec (.list items) = .ok rs ∧
      Receipts.decodeReceiptVec (.list [.list items]) = .ok rs) := by
  constructor
  · intro b b2 rest
    rfl
  · intro items rs h
    have h1 : Receipts.decodeReceiptVec (.list items) = .ok rs := by
      simp only [Receipts.decodeReceiptVec]
      exact decodeReceiptItems_all_ok items rs h
    refine ⟨h1, ?_⟩
    cases items with
    | nil =>
      have hrs : rs = [] := by
        simp only [Outcome.mapList] at h
        injection h with h
        exact h.symm
      subst hrs
      rfl
    | cons a t =>
      simp only [Outcome.mapList] at h
      obtain ⟨r0, hd0, hrest⟩ := bind_ok_elim h
      obtain ⟨x, xs, hsh⟩ := receipt_decode_ok_shape a r0 hd0
      have hw2 : Receipts.Receipt.decode (RlpItem.list (a :: t)) =
          .err .rlpExpectedToBeData := by
        rw [hsh]
        exact receipt_decode_wrapper_fails x xs t
      have e1 : Receipts.decodeReceiptVec (RlpItem.list [RlpItem.list (a :: t)]) =
          match Receipts.Receipt.decode (RlpItem.list (a :: t)) with
          | .ok r => (Receipts.decodeReceiptItems []).bind fun rs2 => Outcome.ok (r :: rs2)
          | _ => (Receipts.decodeReceiptVec (RlpItem.list (a :: t))).bind fun inner =>
              (Receipts.decodeReceiptItems []).bind fun rs2 => Outcome.ok (inner ++ rs2) := rfl
      rw [e1, hw2]
      simp only [h1, Outcome.bind, Receipts.decodeReceiptItems, List.append_nil]

/-- C8 witness: a single receipt batch and its extra-wrapped form decode to
the same one-receipt sequence. -/
theorem receipts_strip_and_flatten_witness :
    Outcome.mapList Receipts.Receipt.decode [c8ReceiptItem] = .ok [c8Receipt] ∧
      Receipts.decodeReceiptVec (.list [.list [c8ReceiptItem]]) = .ok [c8Receipt] ∧
      Receipts.decodeReceiptVec (.list [c8ReceiptItem]) = .ok [c8Receipt] := by
  have h := receipts_strip_and_flatten.2 [c8ReceiptItem] [c8Receipt] rfl
  exact ⟨rfl, h.2, h.1⟩

/-- C9 (code bug): on a header record whose nonce field at position 14 is a
raw 8-byte string of little-endian value 1, the header decodes successfully
but list_at silently captures an empty byte vector, so the normalized nonce
is 0 rather than the little-endian value of the nonce bytes. -/
theorem header_nonce_bytes_dropped :
    (Blocks.ErigonHeader.decode c9HeaderItem).bind (fun h => .ok h.block_nonce) = .ok [] ∧
      (Blocks.ErigonHeader.decode c9HeaderItem).bind
        (fun h => (Blocks.headerFromErigon h).bind fun hd => .ok hd.nonce) = .ok 0 ∧
      leBytesToNat c9NonceBytes = 1 :=
  ⟨rfl, rfl, rfl⟩

/-- C10: the receipts loader slices the file contents from byte index 1
unconditionally, so a zero-length input terminates abnormally instead of
returning through the Result interface. -/
theorem from_file_empty_input_panics : Receipts.fromFile [] = .panic := rfl

end OpReth
